import Mathlib

/-! The CSR approving controller of vnode-approver.

A shallow embedding of `pkg/certificate` (`approver.go`, `utils.go`,
`certificate_controller.go`) and the properties of its approval logic.

Go strings are embedded as Lean `String`s (valid UTF-8), byte slices as
lists of naturals, Go `error` values as `Option GoError` (`none` is `nil`).
Remote calls made through the Kubernetes client are recorded in an event
log; their answers are given by an arbitrary, history-dependent `Client`.
-/

namespace VNodeApprover

/-! ## Library types used by the package -/

/-- A byte slice. -/
abbrev Bytes := List Nat

/-- The string set of `k8s.io/apimachinery/pkg/util/sets` (`sets.String`). -/
abbrev StringSet := Finset String

/-- Go `sets.NewString(items...)`. -/
def StringSet.NewString (items : List String) : StringSet :=
  items.foldl (fun s x => insert x s) ∅

/-- Go `s1.IsSuperset(s2)`: every item of `s2` is in `s1`. -/
def StringSet.IsSuperset (s1 s2 : StringSet) : Bool :=
  decide (∀ item ∈ s2, item ∈ s1)

/-- Go `s1.Equal(s2)`: `len(s1) == len(s2) && s1.IsSuperset(s2)`. -/
def StringSet.Equal (s1 s2 : StringSet) : Bool :=
  decide (s1.card = s2.card) && s1.IsSuperset s2

/-- Go `strings.HasPrefix(s, p)`. The comparison is on bytes in Go; for
valid UTF-8 strings it coincides with the comparison on characters. -/
def HasPrefix (s p : String) : Bool :=
  p.toList.isPrefixOf s.toList

/-- Errors produced by the Kubernetes client or the lister (transport and
API status errors). `isNotFound` is what `errors.IsNotFound` reports. -/
structure ClientError where
  msg : String
  isNotFound : Bool
  deriving DecidableEq

/-- Go `error` values that occur in the package, by dynamic type. -/
inductive GoError where
  /-- An error built by `fmt.Errorf` or `errors.New`. -/
  | errorString (msg : String)
  /-- A value of the package type `ignorableError`. -/
  | ignorableError (msg : String)
  /-- An error handed back by the client, returned as is. -/
  | client (e : ClientError)
  deriving DecidableEq

/-- The `Error()` method. -/
def GoError.Error : GoError → String
  | .errorString m => m
  | .ignorableError m => m
  | .client e => e.msg

/-- The type assertion `err.(ignorableError)`. -/
def GoError.isIgnorable : GoError → Bool
  | .ignorableError _ => true
  | _ => false

/-- Go `errors.IsNotFound(err)` of apimachinery. -/
def IsNotFound : Option GoError → Bool
  | some (.client e) => e.isNotFound
  | _ => false

/-! ### `fmt` verbs -/

/-- The digits `strconv` uses for escapes. -/
def lowerhex : List Char := "0123456789abcdef".toList

/-- One hexadecimal digit of `n`, at bit offset `s`. -/
def hexAt (n s : Nat) : Char := lowerhex.getD ((n >>> s) % 16) '0'

/-- Go `strconv.IsPrint`: the Latin-1 fast path is in the source of
`strconv`; above it the Unicode tables decide, taken as `table`. -/
def IsPrint (table : Char → Bool) (r : Char) : Bool :=
  if r.toNat ≤ 0xFF then
    if 0x20 ≤ r.toNat ∧ r.toNat ≤ 0x7E then true
    else if 0xA1 ≤ r.toNat ∧ r.toNat ≤ 0xFF then r.toNat != 0xAD
    else false
  else table r

/-- Go `strconv.appendEscapedRune` with quote `"` (neither ASCII-only nor
graphic-only), on one rune. -/
def appendEscapedRune (table : Char → Bool) (r : Char) : List Char :=
  if r = '"' ∨ r = '\\' then ['\\', r]
  else if IsPrint table r then [r]
  else if r.toNat = 0x07 then ['\\', 'a']
  else if r.toNat = 0x08 then ['\\', 'b']
  else if r.toNat = 0x0C then ['\\', 'f']
  else if r = '\n' then ['\\', 'n']
  else if r = '\r' then ['\\', 'r']
  else if r = '\t' then ['\\', 't']
  else if r.toNat = 0x0B then ['\\', 'v']
  else if r.toNat < 0x20 ∨ r.toNat = 0x7F then
    ['\\', 'x', hexAt r.toNat 4, hexAt r.toNat 0]
  else if r.toNat < 0x10000 then
    ['\\', 'u', hexAt r.toNat 12, hexAt r.toNat 8, hexAt r.toNat 4, hexAt r.toNat 0]
  else
    ['\\', 'U', hexAt r.toNat 28, hexAt r.toNat 24, hexAt r.toNat 20, hexAt r.toNat 16,
      hexAt r.toNat 12, hexAt r.toNat 8, hexAt r.toNat 4, hexAt r.toNat 0]

/-- The verb `%q` on a string: `strconv.Quote`. -/
def fmtQ (table : Char → Bool) (s : String) : String :=
  String.mk (['"'] ++ (s.toList.map (appendEscapedRune table)).flatten ++ ['"'])

/-- The verb `%v` on a `[]string`: the elements between brackets,
separated by one space. -/
def fmtV (xs : List String) : String :=
  "[" ++ " ".intercalate xs ++ "]"

/-! ## API objects -/

/-- Go `x509.CertificateRequest`, the fields the package reads
(`Subject.CommonName`, `Subject.Organization` and the SAN lists). -/
structure CertificateRequest where
  CommonName : String
  Organization : List String
  DNSNames : List String
  EmailAddresses : List String
  IPAddresses : List Bytes
  URIs : List String
  deriving DecidableEq

/-- Go `capi.CertificateSigningRequestCondition`. -/
structure Condition where
  Type_ : String
  Status : String
  Reason : String
  Message : String
  deriving DecidableEq

/-- Go `capi.CertificateSigningRequestSpec`. -/
structure CertificateSigningRequestSpec where
  Request : Bytes
  SignerName : String
  Usages : List String
  Username : String
  UID : String
  Groups : List String
  Extra : List (String × List String)
  deriving DecidableEq

/-- Go `capi.CertificateSigningRequestStatus`. -/
structure CertificateSigningRequestStatus where
  Conditions : List Condition
  Certificate : Bytes
  deriving DecidableEq

/-- Go `capi.CertificateSigningRequest`: name, spec and status. -/
structure CertificateSigningRequest where
  Name : String
  Spec : CertificateSigningRequestSpec
  Status : CertificateSigningRequestStatus
  deriving DecidableEq

/-- Go `authorization.ResourceAttributes`. -/
structure ResourceAttributes where
  Group : String
  Resource : String
  Verb : String
  Subresource : String
  deriving DecidableEq

/-- Go `authorization.SubjectAccessReview` as submitted: its spec. -/
structure SubjectAccessReview where
  User : String
  UID : String
  Groups : List String
  Extra : List (String × List String)
  ResourceAttributes : ResourceAttributes
  deriving DecidableEq

def CertificateApproved : String := "Approved"
def CertificateDenied : String := "Denied"
def ConditionTrue : String := "True"
def UsageDigitalSignature : String := "digital signature"
def UsageKeyEncipherment : String := "key encipherment"
def UsageClientAuth : String := "client auth"
def UsageServerAuth : String := "server auth"

/-! ## `utils.go` and the validation of `approver.go` -/

def VNodeClientSignerName : String := "kubernetes.io/kube-apiserver-client"
def SubjectCommonNamePrefix : String := "system:vnode"
def SubjectOrganization : String := "system:vnodes"

def organizationNotSystemNodesErr : GoError :=
  .errorString "subject organization is not system:vnodes"
def commonNameNotSystemNode : GoError :=
  .errorString "subject common name does not begin with system:vnode:"
def dnsSANNotAllowedErr : GoError := .errorString "DNS subjectAltNames are not allowed"
def emailSANNotAllowedErr : GoError := .errorString "Email subjectAltNames are not allowed"
def ipSANNotAllowedErr : GoError := .errorString "IP subjectAltNames are not allowed"
def uriSANNotAllowedErr : GoError := .errorString "URI subjectAltNames are not allowed"

def vnodeClientRequiredUsages : StringSet :=
  StringSet.NewString [UsageDigitalSignature, UsageKeyEncipherment, UsageClientAuth]

/-- The sorted listing `vnodeClientRequiredUsages.List()`. -/
def vnodeClientRequiredUsagesList : List String :=
  [UsageClientAuth, UsageDigitalSignature, UsageKeyEncipherment]

def usagesToSet (usages : List String) : StringSet :=
  usages.foldl (fun result usage => insert usage result) ∅

def ValidateVNodeClientCSR (req : CertificateRequest) (usages : StringSet) : Option GoError :=
  if ¬ ([SubjectOrganization] = req.Organization) then
    some organizationNotSystemNodesErr
  else if req.DNSNames.length > 0 then
    some dnsSANNotAllowedErr
  else if req.EmailAddresses.length > 0 then
    some emailSANNotAllowedErr
  else if req.IPAddresses.length > 0 then
    some ipSANNotAllowedErr
  else if req.URIs.length > 0 then
    some uriSANNotAllowedErr
  else if ¬ HasPrefix req.CommonName SubjectCommonNamePrefix then
    some commonNameNotSystemNode
  else if ¬ vnodeClientRequiredUsages.Equal usages then
    some (.errorString ("usages did not match " ++ fmtV vnodeClientRequiredUsagesList))
  else
    none

def IsVNodeClientCSR (req : CertificateRequest) (usages : StringSet) : Bool :=
  match ValidateVNodeClientCSR req usages with
  | some _ => false
  | none => ValidateVNodeClientCSR req usages == none

/-- What the package takes from libraries without implementing it:
`pem.Decode` (block type and payload, `none` when no block is found),
`x509.ParseCertificateRequest` (its error by message) and the Unicode
table behind `strconv.IsPrint`. -/
structure Env where
  pemDecode : Bytes → Option (String × Bytes)
  parseCertificateRequest : Bytes → Except String CertificateRequest
  isPrintTable : Char → Bool

/-- One observable step of `handle`, with the answer it received. -/
inductive Event where
  /-- `ParseCSR` was called on the request bytes. -/
  | parseCSR (pemBytes : Bytes)
  /-- `SubjectAccessReviews().Create` was called; `answer` is the error
  or the `Status.Allowed` of the review that came back. -/
  | subjectAccessReview (sar : SubjectAccessReview) (answer : ClientError ⊕ Bool)
  /-- `CertificateSigningRequests().UpdateApproval` was called; `answer` is
  the error that came back, if any. -/
  | updateApproval (name : String) (csr : CertificateSigningRequest)
      (answer : Option ClientError)
  deriving DecidableEq

/-- The Kubernetes client (`clientset.Interface`), as far as the approver
uses it. Each answer may depend on everything that happened before the
call: an error (`Sum.inl`) or `Status.Allowed` (`Sum.inr`) for a review,
`nil` or an error for an update (the returned object is discarded by the
caller). -/
structure Client where
  createSubjectAccessReview : List Event → SubjectAccessReview → ClientError ⊕ Bool
  updateApproval : List Event → String → CertificateSigningRequest → Option ClientError

def IgnorableError (s : String) : GoError := .ignorableError s

def GetCertApprovalCondition.loop :
    List Condition → Bool → Bool → Bool × Bool
  | [], approved, denied => (approved, denied)
  | c :: cs, approved, denied =>
    loop cs (if c.Type_ = CertificateApproved then true else approved)
      (if c.Type_ = CertificateDenied then true else denied)

def GetCertApprovalCondition (status : CertificateSigningRequestStatus) : Bool × Bool :=
  GetCertApprovalCondition.loop status.Conditions false false

def ParseCSR (env : Env) (pemBytes : Bytes) : Except GoError CertificateRequest :=
  match env.pemDecode pemBytes with
  | none => .error (.errorString "PEM block type must be CERTIFICATE REQUEST")
  | some (blockType, blockBytes) =>
    if blockType ≠ "CERTIFICATE REQUEST" then
      .error (.errorString "PEM block type must be CERTIFICATE REQUEST")
    else
      match env.parseCertificateRequest blockBytes with
      | .error err => .error (.errorString err)
      | .ok csr => .ok csr

/-! ## `approver.go` -/

structure csrRecognizer where
  recognize : CertificateSigningRequest → CertificateRequest → Bool
  permission : ResourceAttributes
  successMessage : String

structure sarApprover where
  client : Client
  recognizers : List csrRecognizer

def isNodeClientCert (csr : CertificateSigningRequest) (x509cr : CertificateRequest) : Bool :=
  if csr.Spec.SignerName ≠ VNodeClientSignerName then false
  else IsVNodeClientCSR x509cr (usagesToSet csr.Spec.Usages)

def isSelfNodeClientCert (csr : CertificateSigningRequest) (x509cr : CertificateRequest) : Bool :=
  if csr.Spec.Username ≠ x509cr.CommonName then false
  else isNodeClientCert csr x509cr

def selfNodeClientRecognizer : csrRecognizer where
  recognize := isSelfNodeClientCert
  permission :=
    { Group := "certificates.k8s.io", Resource := "certificatesigningrequests",
      Verb := "create", Subresource := "selfnodeclient" }
  successMessage := "Auto approving self vnode client certificate after SubjectAccessReview."

def nodeClientRecognizer : csrRecognizer where
  recognize := isNodeClientCert
  permission :=
    { Group := "certificates.k8s.io", Resource := "certificatesigningrequests",
      Verb := "create", Subresource := "nodeclient" }
  successMessage := "Auto approving vnode client certificate after SubjectAccessReview."

def recognizers : List csrRecognizer :=
  [selfNodeClientRecognizer, nodeClientRecognizer]

/-- The review `authorize` submits for `csr` and `rattrs`. -/
def reviewFor (csr : CertificateSigningRequest) (rattrs : ResourceAttributes) :
    SubjectAccessReview where
  User := csr.Spec.Username
  UID := csr.Spec.UID
  Groups := csr.Spec.Groups
  Extra := csr.Spec.Extra
  ResourceAttributes := rattrs

def authorize (a : sarApprover) (csr : CertificateSigningRequest) (rattrs : ResourceAttributes)
    (log : List Event) : Except GoError Bool × List Event :=
  let sar := reviewFor csr rattrs
  match a.client.createSubjectAccessReview log sar with
  | .inl err => (.error (.client err), log ++ [.subjectAccessReview sar (.inl err)])
  | .inr allowed => (.ok allowed, log ++ [.subjectAccessReview sar (.inr allowed)])

def appendApprovalCondition (csr : CertificateSigningRequest) (message : String) :
    CertificateSigningRequest :=
  { csr with Status := { csr.Status with
      Conditions := csr.Status.Conditions ++
        [{ Type_ := CertificateApproved, Status := ConditionTrue,
           Reason := "AutoApproved", Message := message }] } }

/-- What one call of `handle` leaves behind: the returned error, the
object as the pointer now shows it, and the calls made. -/
structure HandleResult where
  err : Option GoError
  csr : CertificateSigningRequest
  log : List Event

/-- The `for _, r := range a.recognizers` loop of `handle` with what follows it. -/
def handle.loop (env : Env) (a : sarApprover) (csr : CertificateSigningRequest)
    (x509cr : CertificateRequest) :
    List csrRecognizer → List String → List Event → HandleResult
  | [], tried, log =>
    if tried.length ≠ 0 then
      { err := some (IgnorableError ("recognized csr " ++ fmtQ env.isPrintTable csr.Name ++
          " as " ++ fmtV tried ++ " but subject access review was not approved")),
        csr := csr, log := log }
    else
      { err := none, csr := csr, log := log }
  | r :: rs, tried, log =>
    if ¬ r.recognize csr x509cr then
      handle.loop env a csr x509cr rs tried log
    else
      let tried := tried ++ [r.permission.Subresource]
      match authorize a csr r.permission log with
      | (.error err, log) => { err := some err, csr := csr, log := log }
      | (.ok approved, log) =>
        if approved then
          let csr := appendApprovalCondition csr r.successMessage
          match a.client.updateApproval log csr.Name csr with
          | some err =>
            { err := some (.errorString ("error updating approval for csr: " ++ err.msg)),
              csr := csr, log := log ++ [.updateApproval csr.Name csr (some err)] }
          | none =>
            { err := none, csr := csr, log := log ++ [.updateApproval csr.Name csr none] }
        else
          handle.loop env a csr x509cr rs tried log

def handle (env : Env) (a : sarApprover) (csr : CertificateSigningRequest) : HandleResult :=
  if csr.Status.Certificate.length ≠ 0 then
    { err := none, csr := csr, log := [] }
  else if (GetCertApprovalCondition csr.Status).1 ∨ (GetCertApprovalCondition csr.Status).2 then
    { err := none, csr := csr, log := [] }
  else
    match ParseCSR env csr.Spec.Request with
    | .error err =>
      { err := some (.errorString ("unable to parse csr " ++ fmtQ env.isPrintTable csr.Name ++
          ": " ++ err.Error)),
        csr := csr, log := [.parseCSR csr.Spec.Request] }
    | .ok x509cr =>
      handle.loop env a csr x509cr a.recognizers [] [.parseCSR csr.Spec.Request]

/-- The approver `NewCSRApprovingController` builds. -/
def newSarApprover (client : Client) : sarApprover where
  client := client
  recognizers := recognizers

/-! ## `certificate_controller.go` -/

/-- What the engine does that can be seen from outside: queue operations,
the two reporters, and calls of the pluggable handler. -/
inductive EngineEvent where
  | AddRateLimited (key : String)
  | Forget (key : String)
  | Done (key : String)
  /-- A call of `utilruntime.HandleError`. -/
  | HandleError (msg : String)
  /-- A call of `klog.Errorf`. -/
  | klogErrorf (msg : String)
  /-- A call of `cc.handler`. -/
  | handler (csr : CertificateSigningRequest)
  deriving DecidableEq

/-- The controller: the lister (`csrLister.Get`) and the handler. What the
handler returns stands for any behaviour it may have had. -/
structure CertificateController where
  csrLister : String → Except ClientError CertificateSigningRequest
  handler : CertificateSigningRequest → Option GoError

def syncFunc (cc : CertificateController) (key : String) : Option GoError × List EngineEvent :=
  match cc.csrLister key with
  | .error err =>
    if IsNotFound (some (.client err)) then (none, [])
    else (some (.client err), [])
  | .ok csr =>
    if csr.Status.Certificate.length > 0 then
      (none, [])
    else
      (cc.handler csr, [.handler csr])

/-- One round of the worker; `get` is what `cc.queue.Get()` returned (the
key and the shutdown flag). `Done` is deferred to the end. -/
def processNextWorkItem (cc : CertificateController) (get : String × Bool) :
    Bool × List EngineEvent :=
  let (cKey, quit) := get
  if quit then
    (false, [])
  else
    match syncFunc cc cKey with
    | (some err, events) =>
      let events := events ++ [.AddRateLimited cKey]
      let events :=
        if ¬ err.isIgnorable then
          events ++ [.HandleError ("Sync " ++ cKey ++ " failed with : " ++ err.Error)]
        else
          events ++ [.klogErrorf ("Sync " ++ cKey ++ " failed with : " ++ err.Error)]
      (true, events ++ [.Done cKey])
    | (none, events) =>
      (true, events ++ [.Forget cKey] ++ [.Done cKey])

/-- The controller `NewCSRApprovingController` builds: the handler is
`approver.handle`, of which the engine sees the returned error. -/
def NewCSRApprovingController (env : Env) (client : Client)
    (csrLister : String → Except ClientError CertificateSigningRequest) :
    CertificateController where
  csrLister := csrLister
  handler := fun csr => (handle env (newSarApprover client) csr).err

/-! ## Vocabulary of the statements -/

/-- A terminal object: issued certificate present, or a condition of type
Approved or Denied present (whatever its status). -/
def isTerminal (csr : CertificateSigningRequest) : Prop :=
  csr.Status.Certificate ≠ [] ∨
    ∃ c ∈ csr.Status.Conditions, c.Type_ = "Approved" ∨ c.Type_ = "Denied"

def Event.isReview : Event → Bool
  | .subjectAccessReview _ _ => true
  | _ => false

def Event.isUpdate : Event → Bool
  | .updateApproval _ _ _ => true
  | _ => false

def EngineEvent.isQueueOp : EngineEvent → Bool
  | .AddRateLimited _ => true
  | .Forget _ => true
  | .Done _ => true
  | _ => false

def EngineEvent.isHandleError : EngineEvent → Bool
  | .HandleError _ => true
  | _ => false

def EngineEvent.isHandler : EngineEvent → Bool
  | .handler _ => true
  | _ => false

/-- The shape strict validation asks for, in the words of the specification. -/
def vnodeClientShape (req : CertificateRequest) (usages : StringSet) : Prop :=
  req.Organization = ["system:vnodes"] ∧
  req.DNSNames = [] ∧ req.EmailAddresses = [] ∧ req.IPAddresses = [] ∧ req.URIs = [] ∧
  (∃ rest : String, req.CommonName = SubjectCommonNamePrefix ++ rest) ∧
  usages = {"digital signature", "key encipherment", "client auth"}

/-- The recognizers of `rs` whose predicate holds, in list order. -/
def matching (rs : List csrRecognizer) (csr : CertificateSigningRequest)
    (x509cr : CertificateRequest) : List csrRecognizer :=
  rs.filter (fun r => r.recognize csr x509cr)

/-- The review call for recognizer `r` with its answer. -/
def reviewEvent (csr : CertificateSigningRequest) (r : csrRecognizer)
    (answer : ClientError ⊕ Bool) : Event :=
  .subjectAccessReview (reviewFor csr r.permission) answer

/-- One review per recognizer of `ms`, in order, each answered "not allowed". -/
def deniedLog (csr : CertificateSigningRequest) (ms : List csrRecognizer) : List Event :=
  ms.map (fun r => reviewEvent csr r (.inr false))

/-- Starting after `log`, the client answers "not allowed", without
error, to the review of each recognizer of `ms` in turn. -/
def AllDenied (client : Client) (csr : CertificateSigningRequest) :
    List csrRecognizer → List Event → Prop
  | [], _ => True
  | r :: ms, log =>
    client.createSubjectAccessReview log (reviewFor csr r.permission) = .inr false ∧
      AllDenied client csr ms (log ++ [reviewEvent csr r (.inr false)])

/-- The condition an approval appends. -/
def approvedCondition (message : String) : Condition where
  Type_ := "Approved"
  Status := "True"
  Reason := "AutoApproved"
  Message := message

/-- The object `handle` submits when recognizer `r` is authorized: `csr`
with one Approved condition appended. -/
def approvedObject (csr : CertificateSigningRequest) (r : csrRecognizer) :
    CertificateSigningRequest :=
  { Name := csr.Name, Spec := csr.Spec,
    Status :=
      { Conditions := csr.Status.Conditions ++ [approvedCondition r.successMessage],
        Certificate := csr.Status.Certificate } }

/-- What `handle` leaves behind when, after `log`, the review of `r` is
answered "allowed": the review, then the one update with its answer. -/
def approveResult (a : sarApprover) (csr : CertificateSigningRequest) (r : csrRecognizer)
    (log : List Event) : HandleResult :=
  let answer := a.client.updateApproval (log ++ [reviewEvent csr r (.inr true)]) csr.Name
    (approvedObject csr r)
  { err := answer.map (fun e => .errorString ("error updating approval for csr: " ++ e.msg)),
    csr := approvedObject csr r,
    log := log ++ [reviewEvent csr r (.inr true)] ++
      [.updateApproval csr.Name (approvedObject csr r) answer] }

/-- The reviews submitted in a log, in order. -/
def reviewsOf (log : List Event) : List SubjectAccessReview :=
  log.filterMap (fun ev =>
    match ev with
    | .subjectAccessReview sar _ => some sar
    | _ => none)

/-- The text of the error `handle` returns when every review was denied. -/
def deniedText (env : Env) (csr : CertificateSigningRequest) (tried : List String) : String :=
  "recognized csr " ++ fmtQ env.isPrintTable csr.Name ++ " as " ++ fmtV tried ++
    " but subject access review was not approved"

/-- No character of `s` is escaped by `%q`: none is a double quote or a
backslash, and all are printable in the sense of `strconv.IsPrint`. -/
def unescaped (table : Char → Bool) (s : String) : Prop :=
  ∀ c ∈ s.toList, c ≠ '"' ∧ c ≠ '\\' ∧ IsPrint table c = true

/-- The review of the self-node-client permission for `csr`. -/
def selfNodeClientReview (csr : CertificateSigningRequest) : SubjectAccessReview where
  User := csr.Spec.Username
  UID := csr.Spec.UID
  Groups := csr.Spec.Groups
  Extra := csr.Spec.Extra
  ResourceAttributes :=
    { Group := "certificates.k8s.io", Resource := "certificatesigningrequests",
      Verb := "create", Subresource := "selfnodeclient" }

/-- The review of the generic node-client permission for `csr`. -/
def nodeClientReview (csr : CertificateSigningRequest) : SubjectAccessReview where
  User := csr.Spec.Username
  UID := csr.Spec.UID
  Groups := csr.Spec.Groups
  Extra := csr.Spec.Extra
  ResourceAttributes :=
    { Group := "certificates.k8s.io", Resource := "certificatesigningrequests",
      Verb := "create", Subresource := "nodeclient" }

/-- Every review recorded in `log` carries the answer the client gave to
it at that point of the history. -/
def AnswersFrom (client : Client) (log : List Event) : Prop :=
  ∀ pre sar answer post, log = pre ++ Event.subjectAccessReview sar answer :: post →
    answer = client.createSubjectAccessReview pre sar

/-! ## Concrete objects for the examples -/

/-- The parsed request of the end-to-end example. -/
def workerRequest : CertificateRequest where
  CommonName := "system:vnode:worker-1"
  Organization := ["system:vnodes"]
  DNSNames := []
  EmailAddresses := []
  IPAddresses := []
  URIs := []

/-- An environment in which every request parses to `workerRequest`. -/
def workerEnv : Env where
  pemDecode := fun b => some ("CERTIFICATE REQUEST", b)
  parseCertificateRequest := fun _ => .ok workerRequest
  isPrintTable := fun _ => false

/-- An environment in which no request parses. -/
def brokenEnv : Env where
  pemDecode := fun _ => none
  parseCertificateRequest := fun _ => .error "asn1: syntax error"
  isPrintTable := fun _ => false

/-- The object of the end-to-end example, requested by the node itself. -/
def workerCSR : CertificateSigningRequest where
  Name := "csr-1"
  Spec :=
    { Request := [45, 45], SignerName := "kubernetes.io/kube-apiserver-client",
      Usages := ["digital signature", "key encipherment", "client auth"],
      Username := "system:vnode:worker-1", UID := "uid-1",
      Groups := ["system:vnodes"], Extra := [] }
  Status := { Conditions := [], Certificate := [] }

/-- The same object already denied by somebody else. -/
def deniedCSR : CertificateSigningRequest :=
  { workerCSR with Status :=
      { Conditions := [{ Type_ := "Denied", Status := "False", Reason := "", Message := "" }],
        Certificate := [] } }

/-- The same object already approved, certificate not yet issued. -/
def approvedCSR : CertificateSigningRequest :=
  { workerCSR with Status :=
      { Conditions := [approvedCondition "by hand"], Certificate := [] } }

/-- The same object with its certificate issued. -/
def issuedCSR : CertificateSigningRequest :=
  { workerCSR with Status := { Conditions := [], Certificate := [48] } }

/-- The same object under a name with a double quote in it. -/
def quotedCSR : CertificateSigningRequest :=
  { workerCSR with Name := "a\"b" }

/-- A client that allows every review and accepts every update. -/
def allowAll : Client where
  createSubjectAccessReview := fun _ _ => .inr true
  updateApproval := fun _ _ _ => none

/-- A client that allows no review. -/
def denyAll : Client where
  createSubjectAccessReview := fun _ _ => .inr false
  updateApproval := fun _ _ _ => none

/-- A client whose reviews fail in transport. -/
def failing : Client where
  createSubjectAccessReview := fun _ _ => .inl { msg := "connection refused", isNotFound := false }
  updateApproval := fun _ _ _ => none

/-- A controller whose cache holds `workerCSR` and whose handler returns `err`. -/
def controllerReturning (err : Option GoError) : CertificateController where
  csrLister := fun _ => .ok workerCSR
  handler := fun _ => err

/-- A request that fails strict validation: it asks for a DNS SAN. -/
def serverRequest : CertificateRequest :=
  { workerRequest with DNSNames := ["worker-1.example"] }

/-- An environment in which every request parses to `serverRequest`. -/
def serverEnv : Env where
  pemDecode := fun b => some ("CERTIFICATE REQUEST", b)
  parseCertificateRequest := fun _ => .ok serverRequest
  isPrintTable := fun _ => false

/-- A controller whose cache holds `approvedCSR` and whose handler fails. -/
def failingController : CertificateController where
  csrLister := fun _ => .ok approvedCSR
  handler := fun _ => some (.errorString "handler was called")

/-! ## Lemmas on the library models -/

theorem StringSet.Equal_iff (s1 s2 : StringSet) : s1.Equal s2 = true ↔ s1 = s2 := by
  unfold StringSet.Equal StringSet.IsSuperset
  simp only [Bool.and_eq_true, decide_eq_true_eq]
  constructor
  · rintro ⟨hc, hs⟩
    exact (Finset.eq_of_subset_of_card_le hs (le_of_eq hc)).symm
  · rintro rfl
    exact ⟨rfl, fun _ h => h⟩

theorem vnodeClientRequiredUsages_eq :
    vnodeClientRequiredUsages = {"digital signature", "key encipherment", "client auth"} := by
  decide

theorem HasPrefix_iff (s p : String) : HasPrefix s p = true ↔ ∃ rest : String, s = p ++ rest := by
  unfold HasPrefix
  rw [List.isPrefixOf_iff_prefix]
  constructor
  · rintro ⟨t, ht⟩
    refine ⟨String.mk t, ?_⟩
    apply String.ext
    exact ht.symm
  · rintro ⟨rest, rfl⟩
    exact ⟨rest.toList, by simp⟩

theorem ValidateVNodeClientCSR_eq_none_iff (req : CertificateRequest) (usages : StringSet) :
    ValidateVNodeClientCSR req usages = none ↔ vnodeClientShape req usages := by
  unfold ValidateVNodeClientCSR vnodeClientShape
  rw [← HasPrefix_iff, ← vnodeClientRequiredUsages_eq]
  have hE := StringSet.Equal_iff vnodeClientRequiredUsages usages
  by_cases h1 : [SubjectOrganization] = req.Organization
  · by_cases h2 : req.DNSNames.length > 0
    · have : req.DNSNames ≠ [] := List.ne_nil_of_length_pos h2
      simp [h1, h2, this]
    · by_cases h3 : req.EmailAddresses.length > 0
      · have : req.EmailAddresses ≠ [] := List.ne_nil_of_length_pos h3
        simp [h1, h2, h3, this]
      · by_cases h4 : req.IPAddresses.length > 0
        · have : req.IPAddresses ≠ [] := List.ne_nil_of_length_pos h4
          simp [h1, h2, h3, h4, this]
        · by_cases h5 : req.URIs.length > 0
          · have : req.URIs ≠ [] := List.ne_nil_of_length_pos h5
            simp [h1, h2, h3, h4, h5, this]
          · have e2 : req.DNSNames = [] := List.length_eq_zero.mp (by omega)
            have e3 : req.EmailAddresses = [] := List.length_eq_zero.mp (by omega)
            have e4 : req.IPAddresses = [] := List.length_eq_zero.mp (by omega)
            have e5 : req.URIs = [] := List.length_eq_zero.mp (by omega)
            have e1 : req.Organization = ["system:vnodes"] := h1.symm
            have h1' : ([SubjectOrganization] = ["system:vnodes"]) := rfl
            rw [e1, e2, e3, e4, e5]
            by_cases h6 : HasPrefix req.CommonName SubjectCommonNamePrefix = true
            · by_cases h7 : vnodeClientRequiredUsages.Equal usages = true
              · have h8 := (hE.mp h7).symm
                subst h8
                simp [h1', h6, h7]
              · have hne : ¬ usages = vnodeClientRequiredUsages := fun h => h7 (hE.mpr h.symm)
                simp [h1', h6, h7, hne]
            · simp [h1', h6]
  · have : ¬ req.Organization = ["system:vnodes"] := fun h => h1 h.symm
    simp [h1, this]

theorem IsVNodeClientCSR_iff (req : CertificateRequest) (usages : StringSet) :
    IsVNodeClientCSR req usages = true ↔ ValidateVNodeClientCSR req usages = none := by
  unfold IsVNodeClientCSR
  cases h : ValidateVNodeClientCSR req usages <;> simp

/-! ## Lemmas on the terminal-state test -/

theorem GetCertApprovalCondition.loop_eq (cs : List Condition) (approved denied : Bool) :
    GetCertApprovalCondition.loop cs approved denied =
      (approved || cs.any (fun c => decide (c.Type_ = "Approved")),
       denied || cs.any (fun c => decide (c.Type_ = "Denied"))) := by
  induction cs generalizing approved denied with
  | nil => simp [GetCertApprovalCondition.loop]
  | cons c cs ih =>
    rw [GetCertApprovalCondition.loop, ih]
    by_cases h1 : c.Type_ = "Approved" <;> by_cases h2 : c.Type_ = "Denied" <;>
      simp [h1, h2, CertificateApproved, CertificateDenied]

/-- The two guards at the top of `handle` fire exactly on terminal objects. -/
theorem terminal_guard_iff (csr : CertificateSigningRequest) :
    (csr.Status.Certificate.length ≠ 0 ∨
      ((GetCertApprovalCondition csr.Status).1 = true ∨
        (GetCertApprovalCondition csr.Status).2 = true)) ↔ isTerminal csr := by
  unfold isTerminal GetCertApprovalCondition
  rw [GetCertApprovalCondition.loop_eq]
  simp only [Bool.false_or, List.any_eq_true, decide_eq_true_eq, ne_eq, List.length_eq_zero]
  constructor
  · rintro (h | ⟨c, hc, h⟩ | ⟨c, hc, h⟩)
    · exact Or.inl h
    · exact Or.inr ⟨c, hc, Or.inl h⟩
    · exact Or.inr ⟨c, hc, Or.inr h⟩
  · rintro (h | ⟨c, hc, h | h⟩)
    · exact Or.inl h
    · exact Or.inr (Or.inl ⟨c, hc, h⟩)
    · exact Or.inr (Or.inr ⟨c, hc, h⟩)

theorem handle_of_terminal (env : Env) (a : sarApprover) (csr : CertificateSigningRequest)
    (h : isTerminal csr) : handle env a csr = { err := none, csr := csr, log := [] } := by
  have hg := (terminal_guard_iff csr).mpr h
  unfold handle
  by_cases h1 : csr.Status.Certificate.length ≠ 0
  · rw [if_pos h1]
  · rw [if_neg h1, if_pos (hg.resolve_left h1)]

theorem handle_of_not_terminal (env : Env) (a : sarApprover) (csr : CertificateSigningRequest)
    (h : ¬ isTerminal csr) :
    handle env a csr =
      match ParseCSR env csr.Spec.Request with
      | .error err =>
        { err := some (.errorString ("unable to parse csr " ++ fmtQ env.isPrintTable csr.Name ++
            ": " ++ err.Error)),
          csr := csr, log := [.parseCSR csr.Spec.Request] }
      | .ok x509cr =>
        handle.loop env a csr x509cr a.recognizers [] [.parseCSR csr.Spec.Request] := by
  have hg := fun h' => h ((terminal_guard_iff csr).mp h')
  unfold handle
  rw [if_neg (fun h1 => hg (Or.inl h1)), if_neg (fun h2 => hg (Or.inr h2))]

/-! ## The claims on validation -/

/-- C4: `ValidateVNodeClientCSR` returns nil, and `IsVNodeClientCSR` true,
exactly when the organization list is `["system:vnodes"]`, the four SAN
lists are empty, the common name starts with `SubjectCommonNamePrefix` and
the usage set equals {digital signature, key encipherment, client auth}.
The superset with server auth fails, every strict subset fails, and the
organizations `["other-org"]`, `[]` and any list longer than one fail
whatever the rest is. -/
theorem ValidateVNodeClientCSR_exact (req : CertificateRequest) (usages : StringSet) :
    (ValidateVNodeClientCSR req usages = none ↔ vnodeClientShape req usages) ∧
    (IsVNodeClientCSR req usages = true ↔ vnodeClientShape req usages) ∧
    ValidateVNodeClientCSR req
      {"digital signature", "key encipherment", "client auth", "server auth"} ≠ none ∧
    (∀ u : StringSet, u ⊂ {"digital signature", "key encipherment", "client auth"} →
      ValidateVNodeClientCSR req u ≠ none) ∧
    ValidateVNodeClientCSR { req with Organization := ["other-org"] } usages ≠ none ∧
    ValidateVNodeClientCSR { req with Organization := [] } usages ≠ none ∧
    (∀ o os, ValidateVNodeClientCSR
      { req with Organization := "system:vnodes" :: o :: os } usages ≠ none) := by
  refine ⟨ValidateVNodeClientCSR_eq_none_iff req usages,
    (IsVNodeClientCSR_iff req usages).trans (ValidateVNodeClientCSR_eq_none_iff req usages),
    ?_, ?_, ?_, ?_, ?_⟩
  · rw [Ne, ValidateVNodeClientCSR_eq_none_iff]
    rintro ⟨-, -, -, -, -, -, h⟩
    revert h
    decide
  · intro u hu
    rw [Ne, ValidateVNodeClientCSR_eq_none_iff]
    rintro ⟨-, -, -, -, -, -, h⟩
    exact (ne_of_lt hu) h
  · rw [Ne, ValidateVNodeClientCSR_eq_none_iff]
    rintro ⟨h, -⟩
    exact absurd (List.cons.inj h).1 (by decide)
  · rw [Ne, ValidateVNodeClientCSR_eq_none_iff]
    rintro ⟨h, -⟩
    exact absurd h (by simp)
  · intro o os
    rw [Ne, ValidateVNodeClientCSR_eq_none_iff]
    rintro ⟨h, -⟩
    exact absurd h (by simp)

/-- The exactness of validation at the end-to-end request: it passes with
the required usages and fails with the one-element subset {client auth}. -/
theorem ValidateVNodeClientCSR_exact_witness :
    ValidateVNodeClientCSR workerRequest vnodeClientRequiredUsages = none ∧
    ValidateVNodeClientCSR workerRequest {"client auth"} ≠ none :=
  ⟨by decide,
   (ValidateVNodeClientCSR_exact workerRequest vnodeClientRequiredUsages).2.2.2.1
     {"client auth"} (by decide)⟩

/-- C9, the code at the failing inputs: with organization exactly
`["system:vnodes"]`, no SANs and the required usages, the common names
"system:vnodes", "system:vnode" and "system:vnodeX" do not begin with
"system:vnode:", which is what the text of `commonNameNotSystemNode`
says is demanded, and yet validation returns nil for them and the
node-client recognizer matches. -/
theorem commonName_without_colon_accepted :
    commonNameNotSystemNode.Error = "subject common name does not begin with system:vnode:" ∧
    HasPrefix "system:vnodes" "system:vnode:" = false ∧
    HasPrefix "system:vnode" "system:vnode:" = false ∧
    HasPrefix "system:vnodeX" "system:vnode:" = false ∧
    ValidateVNodeClientCSR { workerRequest with CommonName := "system:vnodes" }
      vnodeClientRequiredUsages = none ∧
    ValidateVNodeClientCSR { workerRequest with CommonName := "system:vnode" }
      vnodeClientRequiredUsages = none ∧
    ValidateVNodeClientCSR { workerRequest with CommonName := "system:vnodeX" }
      vnodeClientRequiredUsages = none ∧
    isNodeClientCert workerCSR { workerRequest with CommonName := "system:vnodes" } = true := by
  decide

/-! ## The claims on terminal objects -/

/-- C1: on an object with a non-empty certificate, or with a condition of
type Approved or Denied of any status, `handle` returns nil, makes no
call at all (no review, no update, and not even `ParseCSR`, whatever the
parser would have said of the request bytes) and leaves the object as it was. -/
theorem handle_terminal_noop (env : Env) (a : sarApprover) (csr : CertificateSigningRequest)
    (h : csr.Status.Certificate ≠ [] ∨
      ∃ c ∈ csr.Status.Conditions, c.Type_ = "Approved" ∨ c.Type_ = "Denied") :
    (handle env a csr).err = none ∧ (handle env a csr).log = [] ∧
      (handle env a csr).csr = csr ∧
      (handle env a csr).csr.Status.Conditions = csr.Status.Conditions := by
  rw [handle_of_terminal env a csr h]
  exact ⟨rfl, rfl, rfl, rfl⟩

/-- The object denied with status "False", in an environment where its
request bytes do not parse: `handle` returns nil without any call. -/
theorem handle_terminal_noop_witness :
    (∃ err, ParseCSR brokenEnv deniedCSR.Spec.Request = .error err) ∧
    (handle brokenEnv (newSarApprover allowAll) deniedCSR).err = none ∧
    (handle brokenEnv (newSarApprover allowAll) deniedCSR).log = [] ∧
    (handle brokenEnv (newSarApprover allowAll) deniedCSR).csr = deniedCSR ∧
    (handle brokenEnv (newSarApprover allowAll) deniedCSR).csr.Status.Conditions =
      deniedCSR.Status.Conditions :=
  ⟨⟨_, rfl⟩, handle_terminal_noop brokenEnv (newSarApprover allowAll) deniedCSR
    (Or.inr ⟨_, List.mem_singleton.mpr rfl, Or.inr rfl⟩)⟩

/-! ## Lemmas on the recognizer loop -/

section Loop

variable (env : Env) (a : sarApprover) (csr : CertificateSigningRequest)
  (x509cr : CertificateRequest)

theorem handle.loop_nil (tried : List String) (log : List Event) :
    handle.loop env a csr x509cr [] tried log =
      if tried.length ≠ 0 then
        { err := some (.ignorableError (deniedText env csr tried)), csr := csr, log := log }
      else { err := none, csr := csr, log := log } := by
  simp [handle.loop, IgnorableError, deniedText]

theorem handle.loop_cons_skip (r : csrRecognizer) (rs : List csrRecognizer)
    (tried : List String) (log : List Event) (h : r.recognize csr x509cr = false) :
    handle.loop env a csr x509cr (r :: rs) tried log =
      handle.loop env a csr x509cr rs tried log := by
  simp [handle.loop, h]

theorem handle.loop_cons_denied (r : csrRecognizer) (rs : List csrRecognizer)
    (tried : List String) (log : List Event) (h : r.recognize csr x509cr = true)
    (hd : a.client.createSubjectAccessReview log (reviewFor csr r.permission) = .inr false) :
    handle.loop env a csr x509cr (r :: rs) tried log =
      handle.loop env a csr x509cr rs (tried ++ [r.permission.Subresource])
        (log ++ [reviewEvent csr r (.inr false)]) := by
  simp [handle.loop, h, authorize, hd, reviewEvent]

theorem handle.loop_cons_allowed (r : csrRecognizer) (rs : List csrRecognizer)
    (tried : List String) (log : List Event) (h : r.recognize csr x509cr = true)
    (hd : a.client.createSubjectAccessReview log (reviewFor csr r.permission) = .inr true) :
    handle.loop env a csr x509cr (r :: rs) tried log = approveResult a csr r log := by
  simp only [handle.loop, h, authorize, hd, reviewEvent, approveResult, appendApprovalCondition,
    approvedObject, approvedCondition, CertificateApproved, ConditionTrue]
  cases hu : a.client.updateApproval _ _ _ <;> simp [hu]

theorem handle.loop_cons_error (r : csrRecognizer) (rs : List csrRecognizer)
    (tried : List String) (log : List Event) (e : ClientError)
    (h : r.recognize csr x509cr = true)
    (hd : a.client.createSubjectAccessReview log (reviewFor csr r.permission) = .inl e) :
    handle.loop env a csr x509cr (r :: rs) tried log =
      { err := some (.client e), csr := csr, log := log ++ [reviewEvent csr r (.inl e)] } := by
  simp [handle.loop, h, authorize, hd, reviewEvent]

theorem matching_cons_of_true (r : csrRecognizer) (rs : List csrRecognizer)
    (h : r.recognize csr x509cr = true) :
    matching (r :: rs) csr x509cr = r :: matching rs csr x509cr := by
  simp [matching, h]

theorem matching_cons_of_false (r : csrRecognizer) (rs : List csrRecognizer)
    (h : r.recognize csr x509cr = false) :
    matching (r :: rs) csr x509cr = matching rs csr x509cr := by
  simp [matching, h]

theorem deniedLog_cons (r : csrRecognizer) (ms : List csrRecognizer) :
    deniedLog csr (r :: ms) = reviewEvent csr r (.inr false) :: deniedLog csr ms := rfl

/-- Every matching recognizer denied: the loop runs through all of them. -/
theorem handle.loop_allDenied (rs : List csrRecognizer) :
    ∀ (tried : List String) (log : List Event),
      AllDenied a.client csr (matching rs csr x509cr) log →
      handle.loop env a csr x509cr rs tried log =
        handle.loop env a csr x509cr []
          (tried ++ (matching rs csr x509cr).map (fun r => r.permission.Subresource))
          (log ++ deniedLog csr (matching rs csr x509cr)) := by
  induction rs with
  | nil => intro tried log _; simp [matching, deniedLog]
  | cons r rs ih =>
    intro tried log h
    cases hr : r.recognize csr x509cr
    · rw [matching_cons_of_false csr x509cr r rs hr] at h ⊢
      rw [handle.loop_cons_skip env a csr x509cr r rs tried log hr]
      exact ih tried log h
    · rw [matching_cons_of_true csr x509cr r rs hr] at h ⊢
      obtain ⟨hd, hrest⟩ := h
      rw [handle.loop_cons_denied env a csr x509cr r rs tried log hr hd, ih _ _ hrest]
      simp [deniedLog_cons, List.append_assoc]

/-- The first matching recognizer that is not denied is allowed: the loop
stops there with the update. -/
theorem handle.loop_firstAllowed (r : csrRecognizer) (post : List csrRecognizer)
    (rs : List csrRecognizer) :
    ∀ (pre : List csrRecognizer) (tried : List String) (log : List Event),
      matching rs csr x509cr = pre ++ r :: post →
      AllDenied a.client csr pre log →
      a.client.createSubjectAccessReview (log ++ deniedLog csr pre)
        (reviewFor csr r.permission) = .inr true →
      handle.loop env a csr x509cr rs tried log =
        approveResult a csr r (log ++ deniedLog csr pre) := by
  induction rs with
  | nil => intro pre tried log h; simp [matching] at h
  | cons r0 rs ih =>
    intro pre tried log hm hpre hr
    cases h0 : r0.recognize csr x509cr
    · rw [matching_cons_of_false csr x509cr r0 rs h0] at hm
      rw [handle.loop_cons_skip env a csr x509cr r0 rs tried log h0]
      exact ih pre tried log hm hpre hr
    · rw [matching_cons_of_true csr x509cr r0 rs h0] at hm
      cases pre with
      | nil =>
        simp only [List.nil_append, List.cons.injEq] at hm
        obtain ⟨rfl, -⟩ := hm
        simp only [deniedLog, List.map_nil, List.append_nil] at hr ⊢
        exact handle.loop_cons_allowed env a csr x509cr r0 rs tried log h0 hr
      | cons p pre =>
        simp only [List.cons_append, List.cons.injEq] at hm
        obtain ⟨rfl, hm⟩ := hm
        obtain ⟨hd, hrest⟩ := hpre
        rw [handle.loop_cons_denied env a csr x509cr r0 rs tried log h0 hd]
        have e1 : log ++ deniedLog csr (r0 :: pre) =
            (log ++ [reviewEvent csr r0 (.inr false)]) ++ deniedLog csr pre := by
          simp [deniedLog_cons]
        rw [e1] at hr ⊢
        exact ih pre _ _ hm hrest hr

/-- The first matching recognizer that is not denied fails in transport:
the loop stops there with that error. -/
theorem handle.loop_firstError (r : csrRecognizer) (post : List csrRecognizer)
    (e : ClientError) (rs : List csrRecognizer) :
    ∀ (pre : List csrRecognizer) (tried : List String) (log : List Event),
      matching rs csr x509cr = pre ++ r :: post →
      AllDenied a.client csr pre log →
      a.client.createSubjectAccessReview (log ++ deniedLog csr pre)
        (reviewFor csr r.permission) = .inl e →
      handle.loop env a csr x509cr rs tried log =
        { err := some (.client e), csr := csr,
          log := log ++ deniedLog csr pre ++ [reviewEvent csr r (.inl e)] } := by
  induction rs with
  | nil => intro pre tried log h; simp [matching] at h
  | cons r0 rs ih =>
    intro pre tried log hm hpre hr
    cases h0 : r0.recognize csr x509cr
    · rw [matching_cons_of_false csr x509cr r0 rs h0] at hm
      rw [handle.loop_cons_skip env a csr x509cr r0 rs tried log h0]
      exact ih pre tried log hm hpre hr
    · rw [matching_cons_of_true csr x509cr r0 rs h0] at hm
      cases pre with
      | nil =>
        simp only [List.nil_append, List.cons.injEq] at hm
        obtain ⟨rfl, -⟩ := hm
        simp only [deniedLog, List.map_nil, List.append_nil] at hr ⊢
        exact handle.loop_cons_error env a csr x509cr r0 rs tried log e h0 hr
      | cons p pre =>
        simp only [List.cons_append, List.cons.injEq] at hm
        obtain ⟨rfl, hm⟩ := hm
        obtain ⟨hd, hrest⟩ := hpre
        rw [handle.loop_cons_denied env a csr x509cr r0 rs tried log h0 hd]
        have e1 : log ++ deniedLog csr (r0 :: pre) =
            (log ++ [reviewEvent csr r0 (.inr false)]) ++ deniedLog csr pre := by
          simp [deniedLog_cons]
        rw [e1] at hr ⊢
        exact ih pre _ _ hm hrest hr

/-- The answers of the client to the reviews of `ms`, asked in turn until
one is not a denial, fall in one of three cases: all denied, a first one
allowed, or a first one failed. -/
theorem answers_cases (client : Client) (ms : List csrRecognizer) :
    ∀ log : List Event,
      AllDenied client csr ms log ∨
      (∃ pre r post, ms = pre ++ r :: post ∧ AllDenied client csr pre log ∧
        client.createSubjectAccessReview (log ++ deniedLog csr pre)
          (reviewFor csr r.permission) = .inr true) ∨
      (∃ pre r post e, ms = pre ++ r :: post ∧ AllDenied client csr pre log ∧
        client.createSubjectAccessReview (log ++ deniedLog csr pre)
          (reviewFor csr r.permission) = .inl e) := by
  induction ms with
  | nil => intro log; exact Or.inl trivial
  | cons r ms ih =>
    intro log
    cases hr : client.createSubjectAccessReview log (reviewFor csr r.permission) with
    | inl e =>
      exact Or.inr (Or.inr ⟨[], r, ms, e, rfl, trivial, by simpa [deniedLog] using hr⟩)
    | inr b =>
      cases b with
      | true =>
        exact Or.inr (Or.inl ⟨[], r, ms, rfl, trivial, by simpa [deniedLog] using hr⟩)
      | false =>
        rcases ih (log ++ [reviewEvent csr r (.inr false)]) with h | ⟨pre, r1, post, rfl, hp, h⟩ |
          ⟨pre, r1, post, e, rfl, hp, h⟩
        · exact Or.inl ⟨hr, h⟩
        · refine Or.inr (Or.inl ⟨r :: pre, r1, post, rfl, ⟨hr, hp⟩, ?_⟩)
          simpa [deniedLog_cons, List.append_assoc] using h
        · refine Or.inr (Or.inr ⟨r :: pre, r1, post, e, rfl, ⟨hr, hp⟩, ?_⟩)
          simpa [deniedLog_cons, List.append_assoc] using h

end Loop

/-! ## Lemmas on logs and texts -/

theorem filter_isUpdate_deniedLog (csr : CertificateSigningRequest) (ms : List csrRecognizer) :
    (deniedLog csr ms).filter Event.isUpdate = [] := by
  simp [deniedLog, List.filter_eq_nil_iff, reviewEvent, Event.isUpdate]

theorem reviewsOf_append (l1 l2 : List Event) :
    reviewsOf (l1 ++ l2) = reviewsOf l1 ++ reviewsOf l2 := by
  simp [reviewsOf]

theorem reviewsOf_deniedLog (csr : CertificateSigningRequest) (ms : List csrRecognizer) :
    reviewsOf (deniedLog csr ms) = ms.map (fun r => reviewFor csr r.permission) := by
  induction ms with
  | nil => rfl
  | cons r ms ih =>
    rw [deniedLog_cons, List.map_cons, ← ih]
    simp [reviewsOf, reviewEvent]

theorem le_length_ite {p : Prop} [Decidable p] {x y : List Char} {n : Nat}
    (hx : n ≤ x.length) (hy : n ≤ y.length) : n ≤ (if p then x else y).length := by
  split <;> assumption

/-- Every escape of `strconv` is at least two characters long. -/
theorem escape_length (c : Char) :
    2 ≤ (if c.toNat = 0x07 then ['\\', 'a']
      else if c.toNat = 0x08 then ['\\', 'b']
      else if c.toNat = 0x0C then ['\\', 'f']
      else if c = '\n' then ['\\', 'n']
      else if c = '\r' then ['\\', 'r']
      else if c = '\t' then ['\\', 't']
      else if c.toNat = 0x0B then ['\\', 'v']
      else if c.toNat < 0x20 ∨ c.toNat = 0x7F then
        ['\\', 'x', hexAt c.toNat 4, hexAt c.toNat 0]
      else if c.toNat < 0x10000 then
        ['\\', 'u', hexAt c.toNat 12, hexAt c.toNat 8, hexAt c.toNat 4, hexAt c.toNat 0]
      else
        ['\\', 'U', hexAt c.toNat 28, hexAt c.toNat 24, hexAt c.toNat 20, hexAt c.toNat 16,
          hexAt c.toNat 12, hexAt c.toNat 8, hexAt c.toNat 4, hexAt c.toNat 0]).length := by
  repeat' apply le_length_ite
  all_goals simp only [List.length_cons, List.length_nil]; omega

theorem appendEscapedRune_length (table : Char → Bool) (c : Char) :
    1 ≤ (appendEscapedRune table c).length := by
  unfold appendEscapedRune
  refine le_length_ite (Nat.le_add_left 1 1) (le_length_ite (Nat.le_refl 1) ?_)
  exact Nat.le_of_succ_le (escape_length c)

theorem appendEscapedRune_eq_singleton_iff (table : Char → Bool) (c : Char) :
    appendEscapedRune table c = [c] ↔ c ≠ '"' ∧ c ≠ '\\' ∧ IsPrint table c = true := by
  constructor
  · intro h
    have hl : (appendEscapedRune table c).length = 1 := by rw [h]; rfl
    by_cases h1 : c = '"' ∨ c = '\\'
    · unfold appendEscapedRune at hl
      rw [if_pos h1] at hl
      exact absurd hl (by simp only [List.length_cons, List.length_nil]; omega)
    · by_cases h2 : IsPrint table c = true
      · exact ⟨fun hc => h1 (Or.inl hc), fun hc => h1 (Or.inr hc), h2⟩
      · exfalso
        unfold appendEscapedRune at hl
        rw [if_neg h1, if_neg h2] at hl
        have := escape_length c
        omega
  · rintro ⟨h1, h2, h3⟩
    unfold appendEscapedRune
    rw [if_neg (not_or.mpr ⟨h1, h2⟩), if_pos h3]

theorem flatten_map_length_le (f : Char → List Char) (hf : ∀ c, 1 ≤ (f c).length)
    (l : List Char) : l.length ≤ ((l.map f).flatten).length := by
  induction l with
  | nil => simp
  | cons c l ih =>
    have := hf c
    simp only [List.map_cons, List.flatten_cons, List.length_append, List.length_cons]
    omega

theorem flatten_map_eq_self_iff (f : Char → List Char) (hf : ∀ c, 1 ≤ (f c).length)
    (l : List Char) : (l.map f).flatten = l ↔ ∀ c ∈ l, f c = [c] := by
  induction l with
  | nil => simp
  | cons c l ih =>
    rw [List.map_cons, List.flatten_cons]
    constructor
    · intro h
      have hlen := congrArg List.length h
      simp only [List.length_append, List.length_cons] at hlen
      have h1 := hf c
      have h2 := flatten_map_length_le f hf l
      have h3 : (f c).length = 1 := by omega
      obtain ⟨x, hx⟩ := List.length_eq_one.mp h3
      rw [hx, List.singleton_append, List.cons.injEq] at h
      obtain ⟨rfl, ht⟩ := h
      intro d hd
      rcases List.mem_cons.mp hd with rfl | hd
      · exact hx
      · exact ih.mp ht d hd
    · intro h
      rw [h c (List.mem_cons_self c l), ih.mpr (fun d hd => h d (List.mem_cons_of_mem c hd))]
      rfl

/-- The verb `%q` gives the name itself between double quotes exactly when
no character of the name is escaped. -/
theorem fmtQ_eq_iff (table : Char → Bool) (s : String) :
    fmtQ table s = "\"" ++ s ++ "\"" ↔ unescaped table s := by
  have hq : fmtQ table s = "\"" ++ s ++ "\"" ↔
      (s.toList.map (appendEscapedRune table)).flatten = s.toList := by
    unfold fmtQ
    rw [String.ext_iff]
    simp
  rw [hq, flatten_map_eq_self_iff _ (appendEscapedRune_length table)]
  unfold unescaped
  exact forall₂_congr (fun c _ => appendEscapedRune_eq_singleton_iff table c)

/-! ## The claims on approval and denial -/

/-- C2: on a non-terminal object whose request parses, when the reviews of
the matching recognizers `pre` are all denied and the review of the next
matching recognizer `r` is allowed, `handle` makes those reviews in order
and then exactly one `UpdateApproval` call. The object submitted is the
original one with exactly one condition appended to its condition list:
Type Approved, Status True, Reason "AutoApproved", Message the success
message of `r`. If the call succeeds `handle` returns nil; if it fails,
an error of the ordinary class. -/
theorem handle_approves_first_authorized (env : Env) (a : sarApprover)
    (csr : CertificateSigningRequest) (x509cr : CertificateRequest)
    (pre : List csrRecognizer) (r : csrRecognizer) (post : List csrRecognizer)
    (hnt : ¬ isTerminal csr)
    (hparse : ParseCSR env csr.Spec.Request = .ok x509cr)
    (hmatch : matching a.recognizers csr x509cr = pre ++ r :: post)
    (hpre : AllDenied a.client csr pre [.parseCSR csr.Spec.Request])
    (hr : a.client.createSubjectAccessReview ([.parseCSR csr.Spec.Request] ++ deniedLog csr pre)
      (reviewFor csr r.permission) = .inr true) :
    ∃ (submitted : CertificateSigningRequest) (answer : Option ClientError),
      (handle env a csr).log =
        [.parseCSR csr.Spec.Request] ++ deniedLog csr pre ++
          [reviewEvent csr r (.inr true), .updateApproval csr.Name submitted answer] ∧
      (handle env a csr).log.filter Event.isUpdate =
        [.updateApproval csr.Name submitted answer] ∧
      answer = a.client.updateApproval
        ([.parseCSR csr.Spec.Request] ++ deniedLog csr pre ++ [reviewEvent csr r (.inr true)])
        csr.Name submitted ∧
      submitted.Name = csr.Name ∧ submitted.Spec = csr.Spec ∧
      submitted.Status.Certificate = csr.Status.Certificate ∧
      submitted.Status.Conditions = csr.Status.Conditions ++
        [{ Type_ := "Approved", Status := "True", Reason := "AutoApproved",
           Message := r.successMessage }] ∧
      (handle env a csr).csr = submitted ∧
      (answer = none → (handle env a csr).err = none) ∧
      (∀ e, answer = some e → (handle env a csr).err =
        some (.errorString ("error updating approval for csr: " ++ e.msg))) := by
  rw [handle_of_not_terminal env a csr hnt, hparse]
  simp only
  rw [handle.loop_firstAllowed env a csr x509cr r post a.recognizers pre [] _ hmatch hpre hr]
  refine ⟨approvedObject csr r, _, ?_, ?_, rfl, rfl, rfl, rfl, rfl, rfl, ?_, ?_⟩
  · simp [approveResult]
  · simp [approveResult, List.filter_append, filter_isUpdate_deniedLog, Event.isUpdate,
      reviewEvent, List.filter_cons]
  · intro h
    simp only [approveResult, List.singleton_append, List.cons_append, List.nil_append] at h ⊢
    rw [h]
    rfl
  · intro e h
    simp only [approveResult, List.singleton_append, List.cons_append, List.nil_append] at h ⊢
    rw [h]
    rfl

/-- The end-to-end approval: organization `["system:vnodes"]`, common name
"system:vnode:worker-1", no SANs, the three required usages, the
kube-apiserver-client signer and an allowing authorizer give one review,
one update carrying the self-node-client message, and nil. -/
theorem handle_approves_first_authorized_witness :
    (handle workerEnv (newSarApprover allowAll) workerCSR).err = none ∧
    (handle workerEnv (newSarApprover allowAll) workerCSR).log.filter Event.isUpdate =
      [.updateApproval "csr-1"
        { workerCSR with Status :=
            { Conditions := [approvedCondition
                "Auto approving self vnode client certificate after SubjectAccessReview."],
              Certificate := [] } } none] := by
  obtain ⟨submitted, answer, -, h2, h3, h4, h5, h6, h7, -, h9, -⟩ :=
    handle_approves_first_authorized workerEnv (newSarApprover allowAll) workerCSR workerRequest
      [] selfNodeClientRecognizer [nodeClientRecognizer]
      (by simp [isTerminal, workerCSR]) rfl
      (by
        have h1 : selfNodeClientRecognizer.recognize workerCSR workerRequest = true := by decide
        have h2 : nodeClientRecognizer.recognize workerCSR workerRequest = true := by decide
        simp [matching, newSarApprover, recognizers, h1, h2])
      trivial rfl
  have ha : answer = none := h3
  refine ⟨h9 ha, ?_⟩
  rw [h2, ha]
  have hs : submitted = { workerCSR with Status :=
      { Conditions := [approvedCondition
          "Auto approving self vnode client certificate after SubjectAccessReview."],
        Certificate := [] } } := by
    cases submitted with
    | mk n sp st =>
      cases st with
      | mk cs cert =>
        simp only at h4 h5 h6 h7
        subst h4 h5 h6 h7
        rfl
  rw [hs]
  rfl

/-- C3, as the code has it: on a non-terminal object whose request parses,
with at least one matching recognizer and every review denied without
error, `handle` makes exactly one review per matching recognizer, in
list order, makes no `UpdateApproval` call, leaves the object as it was,
and returns an `ignorableError`. Its text holds the name of the object as
the verb `%q` renders it, followed by the tried subresources in the order
tried. The rendering is the name itself between double quotes exactly
when no character of the name is a double quote, a backslash or
unprintable; the text then contains the name verbatim. -/
theorem handle_all_denied (env : Env) (a : sarApprover)
    (csr : CertificateSigningRequest) (x509cr : CertificateRequest)
    (hnt : ¬ isTerminal csr)
    (hparse : ParseCSR env csr.Spec.Request = .ok x509cr)
    (hsome : matching a.recognizers csr x509cr ≠ [])
    (hden : AllDenied a.client csr (matching a.recognizers csr x509cr)
      [.parseCSR csr.Spec.Request]) :
    (handle env a csr).log =
      [.parseCSR csr.Spec.Request] ++ deniedLog csr (matching a.recognizers csr x509cr) ∧
    reviewsOf (handle env a csr).log =
      (matching a.recognizers csr x509cr).map (fun r => reviewFor csr r.permission) ∧
    (handle env a csr).log.filter Event.isUpdate = [] ∧
    (handle env a csr).csr = csr ∧
    (handle env a csr).err = some (.ignorableError
      ("recognized csr " ++ fmtQ env.isPrintTable csr.Name ++ " as " ++
        fmtV ((matching a.recognizers csr x509cr).map (fun r => r.permission.Subresource)) ++
        " but subject access review was not approved")) ∧
    (∀ e, (handle env a csr).err = some e → e.isIgnorable = true) ∧
    (fmtQ env.isPrintTable csr.Name = "\"" ++ csr.Name ++ "\"" ↔
      ∀ c ∈ csr.Name.toList, c ≠ '"' ∧ c ≠ '\\' ∧ IsPrint env.isPrintTable c = true) ∧
    ((∀ c ∈ csr.Name.toList, c ≠ '"' ∧ c ≠ '\\' ∧ IsPrint env.isPrintTable c = true) →
      csr.Name.toList <:+:
        ("recognized csr " ++ fmtQ env.isPrintTable csr.Name ++ " as " ++
          fmtV ((matching a.recognizers csr x509cr).map (fun r => r.permission.Subresource)) ++
          " but subject access review was not approved").toList) := by
  have hlen : ((matching a.recognizers csr x509cr).map
      (fun r => r.permission.Subresource)).length ≠ 0 := by
    rw [List.length_map]
    exact fun h => hsome (List.length_eq_zero.mp h)
  have hres : handle env a csr =
      { err := some (.ignorableError (deniedText env csr
          ((matching a.recognizers csr x509cr).map (fun r => r.permission.Subresource)))),
        csr := csr,
        log := [.parseCSR csr.Spec.Request] ++
          deniedLog csr (matching a.recognizers csr x509cr) } := by
    rw [handle_of_not_terminal env a csr hnt, hparse]
    simp only
    rw [handle.loop_allDenied env a csr x509cr a.recognizers [] _ hden, handle.loop_nil,
      List.nil_append, if_pos hlen]
  rw [hres]
  refine ⟨rfl, ?_, ?_, rfl, rfl, ?_, fmtQ_eq_iff _ _, ?_⟩
  · rw [reviewsOf_append, reviewsOf_deniedLog]
    rfl
  · rw [List.filter_append, filter_isUpdate_deniedLog]
    rfl
  · intro e he
    simp only [Option.some.injEq] at he
    subst he
    rfl
  · intro hu
    rw [(fmtQ_eq_iff env.isPrintTable csr.Name).mpr hu]
    refine ⟨"recognized csr \"".toList, ("\" as " ++
      fmtV ((matching a.recognizers csr x509cr).map (fun r => r.permission.Subresource)) ++
      " but subject access review was not approved").toList, ?_⟩
    simp [String.toList, List.append_assoc]

/-- The end-to-end denial: the example request with a denying authorizer
is reviewed as selfnodeclient, then as nodeclient, and not updated. -/
theorem handle_all_denied_witness :
    reviewsOf (handle workerEnv (newSarApprover denyAll) workerCSR).log =
      [reviewFor workerCSR selfNodeClientRecognizer.permission,
       reviewFor workerCSR nodeClientRecognizer.permission] ∧
    (handle workerEnv (newSarApprover denyAll) workerCSR).log.filter Event.isUpdate = [] ∧
    (handle workerEnv (newSarApprover denyAll) workerCSR).err = some (.ignorableError
      "recognized csr \"csr-1\" as [selfnodeclient nodeclient] but subject access review was not approved") := by
  have h1 : selfNodeClientRecognizer.recognize workerCSR workerRequest = true := by decide
  have h2 : nodeClientRecognizer.recognize workerCSR workerRequest = true := by decide
  have hm : matching (newSarApprover denyAll).recognizers workerCSR workerRequest =
      [selfNodeClientRecognizer, nodeClientRecognizer] := by
    simp [matching, newSarApprover, recognizers, h1, h2]
  obtain ⟨-, h4, h5, -, h7, -, -, -⟩ :=
    handle_all_denied workerEnv (newSarApprover denyAll) workerCSR workerRequest
      (by simp [isTerminal, workerCSR]) rfl (by rw [hm]; simp)
      (by rw [hm]; exact ⟨rfl, rfl, trivial⟩)
  rw [hm] at h4 h7
  exact ⟨h4, h5, h7.trans (by decide)⟩

set_option maxRecDepth 100000 in
/-- C3 as stated fails on names that `%q` escapes: for the object named
`a"b`, with both recognizers matching and both reviews denied, the
returned ignorable error reads `recognized csr "a\"b" as [selfnodeclient
nodeclient] but subject access review was not approved`, in which the
name `a"b` does not occur. -/
theorem handle_denied_text_counterexample :
    ¬ isTerminal quotedCSR ∧
    ParseCSR workerEnv quotedCSR.Spec.Request = .ok workerRequest ∧
    (matching (newSarApprover denyAll).recognizers quotedCSR workerRequest).length = 2 ∧
    AllDenied denyAll quotedCSR
      (matching (newSarApprover denyAll).recognizers quotedCSR workerRequest)
      [.parseCSR quotedCSR.Spec.Request] ∧
    (handle workerEnv (newSarApprover denyAll) quotedCSR).err = some (.ignorableError
      "recognized csr \"a\\\"b\" as [selfnodeclient nodeclient] but subject access review was not approved") ∧
    ¬ (quotedCSR.Name.toList <:+:
      "recognized csr \"a\\\"b\" as [selfnodeclient nodeclient] but subject access review was not approved".toList) := by
  have h1 : selfNodeClientRecognizer.recognize quotedCSR workerRequest = true := by decide
  have h2 : nodeClientRecognizer.recognize quotedCSR workerRequest = true := by decide
  have hm : matching (newSarApprover denyAll).recognizers quotedCSR workerRequest =
      [selfNodeClientRecognizer, nodeClientRecognizer] := by
    simp [matching, newSarApprover, recognizers, h1, h2]
  refine ⟨by simp [isTerminal, quotedCSR, workerCSR], rfl, by rw [hm]; rfl,
    by rw [hm]; exact ⟨rfl, rfl, trivial⟩, by decide, by decide⟩

/-! ## The shape of every run of `handle` -/

theorem isNodeClientCert_iff (csr : CertificateSigningRequest) (x509cr : CertificateRequest) :
    isNodeClientCert csr x509cr = true ↔
      csr.Spec.SignerName = VNodeClientSignerName ∧
        ValidateVNodeClientCSR x509cr (usagesToSet csr.Spec.Usages) = none := by
  unfold isNodeClientCert
  by_cases h : csr.Spec.SignerName = VNodeClientSignerName
  · simp [h, IsVNodeClientCSR_iff]
  · simp [h]

theorem isSelfNodeClientCert_iff (csr : CertificateSigningRequest) (x509cr : CertificateRequest) :
    isSelfNodeClientCert csr x509cr = true ↔
      csr.Spec.Username = x509cr.CommonName ∧ isNodeClientCert csr x509cr = true := by
  unfold isSelfNodeClientCert
  by_cases h : csr.Spec.Username = x509cr.CommonName <;> simp [h]

theorem isNodeClientCert_of_mem_matching (csr : CertificateSigningRequest)
    (x509cr : CertificateRequest) (r : csrRecognizer)
    (h : r ∈ matching recognizers csr x509cr) : isNodeClientCert csr x509cr = true := by
  simp only [matching, recognizers, List.mem_filter, List.mem_cons, List.mem_singleton,
    List.not_mem_nil, or_false] at h
  obtain ⟨rfl | rfl, hr⟩ := h
  · exact ((isSelfNodeClientCert_iff csr x509cr).mp hr).2
  · exact hr

theorem mem_deniedLog (csr : CertificateSigningRequest) (ms : List csrRecognizer) (ev : Event) :
    ev ∈ deniedLog csr ms ↔ ∃ r ∈ ms, ev = reviewEvent csr r (.inr false) := by
  simp [deniedLog, eq_comm]

theorem answersFrom_nil (client : Client) : AnswersFrom client [] := by
  intro pre sar answer post h
  simp at h

theorem answersFrom_snoc (client : Client) (log : List Event) (ev : Event)
    (h : AnswersFrom client log)
    (hev : ∀ sar answer, ev = .subjectAccessReview sar answer →
      answer = client.createSubjectAccessReview log sar) :
    AnswersFrom client (log ++ [ev]) := by
  intro pre sar answer post heq
  rcases List.eq_nil_or_concat post with rfl | ⟨post, last, rfl⟩
  · obtain ⟨h1, h2⟩ := List.append_inj' heq rfl
    subst h1
    exact hev sar answer (List.singleton_inj.mp h2)
  · rw [List.concat_eq_append, ← List.cons_append, ← List.append_assoc] at heq
    obtain ⟨h1, -⟩ := List.append_inj' heq rfl
    exact h pre sar answer post h1

theorem answersFrom_deniedLog (client : Client) (csr : CertificateSigningRequest)
    (ms : List csrRecognizer) :
    ∀ log : List Event, AnswersFrom client log → AllDenied client csr ms log →
      AnswersFrom client (log ++ deniedLog csr ms) := by
  induction ms with
  | nil => intro log h _; simpa [deniedLog] using h
  | cons r ms ih =>
    intro log h hd
    have e1 : log ++ deniedLog csr (r :: ms) =
        (log ++ [reviewEvent csr r (.inr false)]) ++ deniedLog csr ms := by
      simp [deniedLog_cons]
    rw [e1]
    refine ih _ (answersFrom_snoc client log _ h ?_) hd.2
    intro sar answer he
    simp only [reviewEvent, Event.subjectAccessReview.injEq] at he
    obtain ⟨rfl, rfl⟩ := he
    exact hd.1.symm

/-- Every run of `handle` has one of five shapes: terminal object, parse
failure, all reviews denied, a first review allowed, a first review failed. -/
theorem handle_shape (env : Env) (a : sarApprover) (csr : CertificateSigningRequest) :
    (isTerminal csr ∧ handle env a csr = { err := none, csr := csr, log := [] }) ∨
    (¬ isTerminal csr ∧ ∃ err, ParseCSR env csr.Spec.Request = .error err ∧
      handle env a csr =
        { err := some (.errorString ("unable to parse csr " ++ fmtQ env.isPrintTable csr.Name ++
            ": " ++ err.Error)),
          csr := csr, log := [.parseCSR csr.Spec.Request] }) ∨
    (¬ isTerminal csr ∧ ∃ x509cr, ParseCSR env csr.Spec.Request = .ok x509cr ∧ (
      (((handle env a csr).err = none ∨ ∃ m, (handle env a csr).err = some (.ignorableError m)) ∧
        (handle env a csr).csr = csr ∧
        (handle env a csr).log =
          [.parseCSR csr.Spec.Request] ++ deniedLog csr (matching a.recognizers csr x509cr) ∧
        AllDenied a.client csr (matching a.recognizers csr x509cr)
          [.parseCSR csr.Spec.Request]) ∨
      (∃ pre r post, matching a.recognizers csr x509cr = pre ++ r :: post ∧
        AllDenied a.client csr pre [.parseCSR csr.Spec.Request] ∧
        a.client.createSubjectAccessReview ([.parseCSR csr.Spec.Request] ++ deniedLog csr pre)
          (reviewFor csr r.permission) = .inr true ∧
        handle env a csr =
          approveResult a csr r ([.parseCSR csr.Spec.Request] ++ deniedLog csr pre)) ∨
      (∃ pre r post e, matching a.recognizers csr x509cr = pre ++ r :: post ∧
        AllDenied a.client csr pre [.parseCSR csr.Spec.Request] ∧
        a.client.createSubjectAccessReview ([.parseCSR csr.Spec.Request] ++ deniedLog csr pre)
          (reviewFor csr r.permission) = .inl e ∧
        handle env a csr =
          { err := some (.client e), csr := csr,
            log := [.parseCSR csr.Spec.Request] ++ deniedLog csr pre ++
              [reviewEvent csr r (.inl e)] }))) := by
  by_cases ht : isTerminal csr
  · exact Or.inl ⟨ht, handle_of_terminal env a csr ht⟩
  · right
    have hh := handle_of_not_terminal env a csr ht
    cases hp : ParseCSR env csr.Spec.Request with
    | error err =>
      rw [hp] at hh
      exact Or.inl ⟨ht, err, rfl, hh⟩
    | ok x509cr =>
      rw [hp] at hh
      simp only at hh
      refine Or.inr ⟨ht, x509cr, rfl, ?_⟩
      rw [hh]
      rcases answers_cases csr a.client (matching a.recognizers csr x509cr)
        [.parseCSR csr.Spec.Request] with h | ⟨pre, r, post, hm, hpre, hr⟩ |
        ⟨pre, r, post, e, hm, hpre, hr⟩
      · left
        rw [handle.loop_allDenied env a csr x509cr a.recognizers [] _ h, handle.loop_nil]
        split
        · exact ⟨Or.inr ⟨_, rfl⟩, rfl, rfl, h⟩
        · exact ⟨Or.inl rfl, rfl, rfl, h⟩
      · right; left
        exact ⟨pre, r, post, hm, hpre, hr,
          handle.loop_firstAllowed env a csr x509cr r post a.recognizers pre [] _ hm hpre hr⟩
      · right; right
        exact ⟨pre, r, post, e, hm, hpre, hr,
          handle.loop_firstError env a csr x509cr r post e a.recognizers pre [] _ hm hpre hr⟩

theorem recognizers_reviews (csr : CertificateSigningRequest) :
    recognizers.map (fun r => reviewFor csr r.permission) =
      [selfNodeClientReview csr, nodeClientReview csr] := rfl

theorem reviews_sublist_of_matching (csr : CertificateSigningRequest)
    (x509cr : CertificateRequest) (ms : List csrRecognizer)
    (h : List.Sublist ms (matching recognizers csr x509cr)) :
    List.Sublist (ms.map (fun r => reviewFor csr r.permission))
      [selfNodeClientReview csr, nodeClientReview csr] := by
  rw [← recognizers_reviews]
  exact (h.trans (List.filter_sublist _)).map _

theorem prefix_snoc_sublist (pre : List csrRecognizer) (r : csrRecognizer)
    (post ms : List csrRecognizer) (h : ms = pre ++ r :: post) :
    List.Sublist (pre ++ [r]) ms := by
  rw [h]
  exact List.Sublist.append (List.Sublist.refl pre)
    (List.cons_sublist_cons.mpr (List.nil_sublist post))

theorem count_le_one_of_sublist (csr : CertificateSigningRequest)
    (l : List SubjectAccessReview)
    (h : List.Sublist l [selfNodeClientReview csr, nodeClientReview csr])
    (sar : SubjectAccessReview) :
    l.count sar ≤ 1 := by
  have hn : [selfNodeClientReview csr, nodeClientReview csr].Nodup := by
    simp [selfNodeClientReview, nodeClientReview]
  exact (h.count_le sar).trans (List.nodup_iff_count_le_one.mp hn sar)

theorem answersFrom_parse (client : Client) (pemBytes : Bytes) :
    AnswersFrom client [.parseCSR pemBytes] :=
  answersFrom_snoc client [] _ (answersFrom_nil client) (by simp)

/-! ## The claims on recognition and safety -/

/-- C10: whatever the object, the parser and the answers of the client,
one run of the approver `NewCSRApprovingController` builds makes at most
one `UpdateApproval` call and at most one review per recognizer (its
reviews are a sublist of self-node-client, node-client; none occurs
twice). It makes an `UpdateApproval` call only if the object is not
terminal, its signer name is `VNodeClientSignerName`, its request parses
and passes strict validation, and a review of this run was answered
"allowed". A review that fails in transport is the last call of the run:
`handle` returns that very error, which is not an `ignorableError`, makes
no update and leaves the object as it was. Every recorded answer is the
one the client gave at that point. -/
theorem handle_safety (env : Env) (client : Client) (csr : CertificateSigningRequest) :
    ((handle env (newSarApprover client) csr).log.filter Event.isUpdate).length ≤ 1 ∧
    List.Sublist (reviewsOf (handle env (newSarApprover client) csr).log)
      [selfNodeClientReview csr, nodeClientReview csr] ∧
    (∀ sar, (reviewsOf (handle env (newSarApprover client) csr).log).count sar ≤ 1) ∧
    (∀ name obj answer,
      Event.updateApproval name obj answer ∈ (handle env (newSarApprover client) csr).log →
        ¬ isTerminal csr ∧
        csr.Spec.SignerName = "kubernetes.io/kube-apiserver-client" ∧
        (∃ x509cr, ParseCSR env csr.Spec.Request = .ok x509cr ∧
          ValidateVNodeClientCSR x509cr (usagesToSet csr.Spec.Usages) = none) ∧
        ∃ sar, Event.subjectAccessReview sar (.inr true) ∈
          (handle env (newSarApprover client) csr).log) ∧
    (∀ sar e,
      Event.subjectAccessReview sar (.inl e) ∈ (handle env (newSarApprover client) csr).log →
        (handle env (newSarApprover client) csr).err = some (.client e) ∧
        (GoError.client e).isIgnorable = false ∧
        (handle env (newSarApprover client) csr).log.filter Event.isUpdate = [] ∧
        (handle env (newSarApprover client) csr).log.getLast? =
          some (.subjectAccessReview sar (.inl e)) ∧
        (handle env (newSarApprover client) csr).csr = csr) ∧
    AnswersFrom client (handle env (newSarApprover client) csr).log := by
  rcases handle_shape env (newSarApprover client) csr with
    ⟨-, h⟩ | ⟨-, err, -, h⟩ |
    ⟨ht, x509cr, hp, ⟨-, -, hlog, hden⟩ | ⟨pre, r, post, hm, hpre, hr, h⟩ |
      ⟨pre, r, post, e, hm, hpre, hr, h⟩⟩
  · rw [h]
    exact ⟨by simp, by simp [reviewsOf], by simp [reviewsOf], by simp, by simp,
      answersFrom_nil client⟩
  · rw [h]
    exact ⟨by simp [Event.isUpdate], by simp [reviewsOf], by simp [reviewsOf], by simp, by simp,
      answersFrom_parse client _⟩
  · replace hlog : (handle env (newSarApprover client) csr).log =
        [.parseCSR csr.Spec.Request] ++ deniedLog csr (matching recognizers csr x509cr) := hlog
    replace hden : AllDenied client csr (matching recognizers csr x509cr)
        [.parseCSR csr.Spec.Request] := hden
    have hsub := reviews_sublist_of_matching csr x509cr _ (List.Sublist.refl _)
    have hrev : reviewsOf (handle env (newSarApprover client) csr).log =
        (matching recognizers csr x509cr).map (fun r => reviewFor csr r.permission) := by
      rw [hlog, reviewsOf_append, reviewsOf_deniedLog]
      rfl
    have hmem : ∀ ev ∈ (handle env (newSarApprover client) csr).log,
        ev = .parseCSR csr.Spec.Request ∨ ∃ r, ev = reviewEvent csr r (.inr false) := by
      intro ev hev
      rw [hlog, List.mem_append, mem_deniedLog] at hev
      rcases hev with hev | ⟨r, -, hev⟩
      · exact Or.inl (List.mem_singleton.mp hev)
      · exact Or.inr ⟨r, hev⟩
    refine ⟨?_, hrev ▸ hsub, fun sar => count_le_one_of_sublist csr _ (hrev ▸ hsub) sar,
      ?_, ?_, ?_⟩
    · rw [hlog, List.filter_append, filter_isUpdate_deniedLog]
      simp [Event.isUpdate]
    · intro name obj answer hev
      rcases hmem _ hev with h | ⟨r, h⟩ <;> simp [reviewEvent] at h
    · intro sar e hev
      rcases hmem _ hev with h | ⟨r, h⟩ <;> simp [reviewEvent] at h
    · rw [hlog]
      exact answersFrom_deniedLog client csr _ _ (answersFrom_parse client _) hden
  · replace hm : matching recognizers csr x509cr = pre ++ r :: post := hm
    replace hpre : AllDenied client csr pre [.parseCSR csr.Spec.Request] := hpre
    replace hr : client.createSubjectAccessReview
      ([.parseCSR csr.Spec.Request] ++ deniedLog csr pre) (reviewFor csr r.permission) = _ := hr
    have hsub := reviews_sublist_of_matching csr x509cr _
      (prefix_snoc_sublist pre r post _ hm)
    have hlog : (handle env (newSarApprover client) csr).log =
        [.parseCSR csr.Spec.Request] ++ deniedLog csr pre ++ [reviewEvent csr r (.inr true)] ++
          [.updateApproval csr.Name (approvedObject csr r)
            (client.updateApproval
              ([.parseCSR csr.Spec.Request] ++ deniedLog csr pre ++
                [reviewEvent csr r (.inr true)]) csr.Name (approvedObject csr r))] := by
      rw [h]
      rfl
    have hrev : reviewsOf (handle env (newSarApprover client) csr).log =
        (pre ++ [r]).map (fun r => reviewFor csr r.permission) := by
      rw [hlog]
      simp only [reviewsOf_append, reviewsOf_deniedLog, List.map_append]
      simp [reviewsOf, reviewEvent]
    have hcert := (isNodeClientCert_iff csr x509cr).mp
      (isNodeClientCert_of_mem_matching csr x509cr r (by rw [hm]; simp))
    refine ⟨?_, hrev ▸ hsub, fun sar => count_le_one_of_sublist csr _ (hrev ▸ hsub) sar,
      ?_, ?_, ?_⟩
    · rw [hlog]
      simp [List.filter_append, filter_isUpdate_deniedLog, Event.isUpdate, reviewEvent]
    · intro name obj answer _
      refine ⟨ht, hcert.1, ⟨x509cr, hp, hcert.2⟩, reviewFor csr r.permission, ?_⟩
      rw [hlog]
      simp [reviewEvent]
    · intro sar e hev
      rw [hlog] at hev
      simp only [List.mem_append, List.mem_singleton, mem_deniedLog, reviewEvent] at hev
      rcases hev with ((h | ⟨_, -, h⟩) | h) | h <;> simp at h
    · rw [hlog]
      refine answersFrom_snoc client _ _ (answersFrom_snoc client _ _
        (answersFrom_deniedLog client csr _ _ (answersFrom_parse client _) hpre) ?_) (by simp)
      intro sar answer he
      simp only [reviewEvent, Event.subjectAccessReview.injEq] at he
      obtain ⟨rfl, rfl⟩ := he
      exact hr.symm
  · replace hm : matching recognizers csr x509cr = pre ++ r :: post := hm
    replace hpre : AllDenied client csr pre [.parseCSR csr.Spec.Request] := hpre
    replace hr : client.createSubjectAccessReview
      ([.parseCSR csr.Spec.Request] ++ deniedLog csr pre) (reviewFor csr r.permission) = _ := hr
    have hsub := reviews_sublist_of_matching csr x509cr _
      (prefix_snoc_sublist pre r post _ hm)
    have hlog : (handle env (newSarApprover client) csr).log =
        [.parseCSR csr.Spec.Request] ++ deniedLog csr pre ++ [reviewEvent csr r (.inl e)] := by
      rw [h]
    have hrev : reviewsOf (handle env (newSarApprover client) csr).log =
        (pre ++ [r]).map (fun r => reviewFor csr r.permission) := by
      rw [hlog]
      simp only [reviewsOf_append, reviewsOf_deniedLog, List.map_append]
      simp [reviewsOf, reviewEvent]
    refine ⟨?_, hrev ▸ hsub, fun sar => count_le_one_of_sublist csr _ (hrev ▸ hsub) sar,
      ?_, ?_, ?_⟩
    · rw [hlog]
      simp [List.filter_append, filter_isUpdate_deniedLog, Event.isUpdate, reviewEvent]
    · intro name obj answer hev
      rw [hlog] at hev
      simp only [List.mem_append, List.mem_singleton, mem_deniedLog, reviewEvent] at hev
      rcases hev with (h | ⟨_, -, h⟩) | h <;> simp at h
    · intro sar e1 hev
      have hev2 := hev
      rw [hlog] at hev2
      simp only [List.mem_append, List.mem_singleton, mem_deniedLog, reviewEvent] at hev2
      rcases hev2 with (h1 | ⟨_, -, h1⟩) | h1
      · simp at h1
      · simp at h1
      · simp only [Event.subjectAccessReview.injEq, Sum.inl.injEq] at h1
        obtain ⟨rfl, rfl⟩ := h1
        refine ⟨by rw [h], rfl, ?_, ?_, by rw [h]⟩
        · rw [hlog]
          simp [List.filter_append, filter_isUpdate_deniedLog, Event.isUpdate, reviewEvent]
        · rw [hlog]
          exact List.getLast?_concat _
    · rw [hlog]
      refine answersFrom_snoc client _ _
        (answersFrom_deniedLog client csr _ _ (answersFrom_parse client _) hpre) ?_
      intro sar answer he
      simp only [reviewEvent, Event.subjectAccessReview.injEq] at he
      obtain ⟨rfl, rfl⟩ := he
      exact hr.symm

/-- The safety properties at a run whose first review fails in
transport: the error comes back as it is, nothing is updated. -/
theorem handle_safety_witness :
    (handle workerEnv (newSarApprover failing) workerCSR).err =
      some (.client { msg := "connection refused", isNotFound := false }) ∧
    (handle workerEnv (newSarApprover failing) workerCSR).log.filter Event.isUpdate = [] ∧
    (handle workerEnv (newSarApprover failing) workerCSR).csr = workerCSR :=
  have h := (handle_safety workerEnv failing workerCSR).2.2.2.2.1
    (selfNodeClientReview workerCSR) { msg := "connection refused", isNotFound := false }
    (by decide)
  ⟨h.1, h.2.2.1, h.2.2.2.2⟩

theorem handle.loop_log_prefix (env : Env) (a : sarApprover) (csr : CertificateSigningRequest)
    (x509cr : CertificateRequest) (rs : List csrRecognizer) :
    ∀ (tried : List String) (log : List Event),
      ∃ rest, (handle.loop env a csr x509cr rs tried log).log = log ++ rest := by
  induction rs with
  | nil =>
    intro tried log
    rw [handle.loop_nil]
    split <;> exact ⟨[], by simp⟩
  | cons r rs ih =>
    intro tried log
    cases hr : r.recognize csr x509cr
    · rw [handle.loop_cons_skip env a csr x509cr r rs tried log hr]
      exact ih tried log
    · cases hd : a.client.createSubjectAccessReview log (reviewFor csr r.permission) with
      | inl e =>
        rw [handle.loop_cons_error env a csr x509cr r rs tried log e hr hd]
        exact ⟨_, rfl⟩
      | inr b =>
        cases b with
        | true =>
          rw [handle.loop_cons_allowed env a csr x509cr r rs tried log hr hd]
          refine ⟨[reviewEvent csr r (.inr true)] ++
            [.updateApproval csr.Name (approvedObject csr r)
              (a.client.updateApproval (log ++ [reviewEvent csr r (.inr true)]) csr.Name
                (approvedObject csr r))], ?_⟩
          simp only [approveResult, List.append_assoc]
        | false =>
          rw [handle.loop_cons_denied env a csr x509cr r rs tried log hr hd]
          obtain ⟨rest, h⟩ := ih (tried ++ [r.permission.Subresource])
            (log ++ [reviewEvent csr r (.inr false)])
          exact ⟨_, by rw [h, List.append_assoc]⟩

/-- C5: on a non-terminal object whose username equals the common name of
the parsed request, whose signer name is `VNodeClientSignerName` and whose
request passes strict validation, the first review `handle` makes is the
one for group certificates.k8s.io, resource certificatesigningrequests,
verb create, subresource selfnodeclient. If it is answered "allowed", it
is the only review (none with subresource nodeclient is made) and the
appended condition carries the self-node-client message, which is not the
generic node-client one. -/
theorem handle_self_recognizer_first (env : Env) (client : Client)
    (csr : CertificateSigningRequest) (x509cr : CertificateRequest)
    (hnt : ¬ isTerminal csr)
    (hparse : ParseCSR env csr.Spec.Request = .ok x509cr)
    (huser : csr.Spec.Username = x509cr.CommonName)
    (hsigner : csr.Spec.SignerName = VNodeClientSignerName)
    (hvalid : ValidateVNodeClientCSR x509cr (usagesToSet csr.Spec.Usages) = none) :
    (∃ rest, (handle env (newSarApprover client) csr).log =
      .parseCSR csr.Spec.Request ::
        .subjectAccessReview (selfNodeClientReview csr)
          (client.createSubjectAccessReview [.parseCSR csr.Spec.Request]
            (selfNodeClientReview csr)) :: rest) ∧
    (reviewsOf (handle env (newSarApprover client) csr).log).head? =
      some (selfNodeClientReview csr) ∧
    (client.createSubjectAccessReview [.parseCSR csr.Spec.Request]
        (selfNodeClientReview csr) = .inr true →
      reviewsOf (handle env (newSarApprover client) csr).log = [selfNodeClientReview csr] ∧
      (∀ sar ∈ reviewsOf (handle env (newSarApprover client) csr).log,
        sar.ResourceAttributes.Subresource ≠ "nodeclient") ∧
      (handle env (newSarApprover client) csr).csr.Status.Conditions =
        csr.Status.Conditions ++
          [{ Type_ := "Approved", Status := "True", Reason := "AutoApproved",
             Message := "Auto approving self vnode client certificate after SubjectAccessReview." }] ∧
      "Auto approving self vnode client certificate after SubjectAccessReview." ≠
        nodeClientRecognizer.successMessage) := by
  have hnode : isNodeClientCert csr x509cr = true :=
    (isNodeClientCert_iff csr x509cr).mpr ⟨hsigner, hvalid⟩
  have hself : selfNodeClientRecognizer.recognize csr x509cr = true :=
    (isSelfNodeClientCert_iff csr x509cr).mpr ⟨huser, hnode⟩
  have hh : handle env (newSarApprover client) csr =
      handle.loop env (newSarApprover client) csr x509cr
        (selfNodeClientRecognizer :: [nodeClientRecognizer]) [] [.parseCSR csr.Spec.Request] := by
    rw [handle_of_not_terminal env _ csr hnt, hparse]
    rfl
  have hrev : reviewFor csr selfNodeClientRecognizer.permission = selfNodeClientReview csr := rfl
  cases hd : client.createSubjectAccessReview [.parseCSR csr.Spec.Request]
      (selfNodeClientReview csr) with
  | inl e =>
    rw [hh, handle.loop_cons_error env _ csr x509cr _ _ [] _ e hself (hrev ▸ hd)]
    exact ⟨⟨[], rfl⟩, rfl, fun h => by simp at h⟩
  | inr b =>
    cases b with
    | false =>
      rw [hh, handle.loop_cons_denied env _ csr x509cr _ _ [] _ hself (hrev ▸ hd)]
      obtain ⟨rest, h⟩ := handle.loop_log_prefix env (newSarApprover client) csr x509cr
        [nodeClientRecognizer] ([] ++ [selfNodeClientRecognizer.permission.Subresource])
        ([.parseCSR csr.Spec.Request] ++ [reviewEvent csr selfNodeClientRecognizer (.inr false)])
      rw [h]
      exact ⟨⟨rest, rfl⟩, rfl, fun h => by simp at h⟩
    | true =>
      rw [hh, handle.loop_cons_allowed env _ csr x509cr _ _ [] _ hself (hrev ▸ hd)]
      refine ⟨⟨_, rfl⟩, rfl, fun _ => ⟨rfl, ?_, rfl, by decide⟩⟩
      intro sar hsar
      have : sar = selfNodeClientReview csr := List.mem_singleton.mp hsar
      rw [this]
      simp [selfNodeClientReview]

/-- The end-to-end request, made by the node itself and allowed: one
review, for selfnodeclient. -/
theorem handle_self_recognizer_first_witness :
    reviewsOf (handle workerEnv (newSarApprover allowAll) workerCSR).log =
      [selfNodeClientReview workerCSR] :=
  ((handle_self_recognizer_first workerEnv allowAll workerCSR workerRequest
    (by simp [isTerminal, workerCSR]) rfl rfl rfl (by decide)).2.2 rfl).1

/-- C8: on a non-terminal object whose request parses, no recognizer
matches exactly when the signer name differs from `VNodeClientSignerName`
or the parsed request fails strict validation; `handle` then returns nil,
makes no review and no update, and leaves the object, its condition list
included, as it was. The same holds for any list of recognizers none of
which matches. -/
theorem handle_unrecognized_noop (env : Env) (client : Client)
    (csr : CertificateSigningRequest) (x509cr : CertificateRequest)
    (hnt : ¬ isTerminal csr)
    (hparse : ParseCSR env csr.Spec.Request = .ok x509cr) :
    ((∀ r ∈ recognizers, r.recognize csr x509cr = false) ↔
      (csr.Spec.SignerName ≠ VNodeClientSignerName ∨
        ValidateVNodeClientCSR x509cr (usagesToSet csr.Spec.Usages) ≠ none)) ∧
    ((csr.Spec.SignerName ≠ VNodeClientSignerName ∨
        ValidateVNodeClientCSR x509cr (usagesToSet csr.Spec.Usages) ≠ none) →
      (handle env (newSarApprover client) csr).err = none ∧
      (handle env (newSarApprover client) csr).log = [.parseCSR csr.Spec.Request] ∧
      reviewsOf (handle env (newSarApprover client) csr).log = [] ∧
      (handle env (newSarApprover client) csr).log.filter Event.isUpdate = [] ∧
      (handle env (newSarApprover client) csr).csr = csr ∧
      (handle env (newSarApprover client) csr).csr.Status.Conditions = csr.Status.Conditions) ∧
    (∀ a : sarApprover, (∀ r ∈ a.recognizers, r.recognize csr x509cr = false) →
      handle env a csr = { err := none, csr := csr, log := [.parseCSR csr.Spec.Request] }) := by
  have hiff : (∀ r ∈ recognizers, r.recognize csr x509cr = false) ↔
      (csr.Spec.SignerName ≠ VNodeClientSignerName ∨
        ValidateVNodeClientCSR x509cr (usagesToSet csr.Spec.Usages) ≠ none) := by
    have h1 := isNodeClientCert_iff csr x509cr
    have h2 := isSelfNodeClientCert_iff csr x509cr
    constructor
    · intro h
      have hn : isNodeClientCert csr x509cr = false := h nodeClientRecognizer (by simp [recognizers])
      by_contra hc
      push_neg at hc
      rw [h1.mpr hc] at hn
      exact Bool.noConfusion hn
    · intro h r hr
      have hn : ¬ isNodeClientCert csr x509cr = true := by
        rw [h1]
        rintro ⟨ha, hb⟩
        exact h.elim (fun h => h ha) (fun h => h hb)
      have hs : ¬ isSelfNodeClientCert csr x509cr = true := fun h => hn (h2.mp h).2
      simp only [recognizers, List.mem_cons, List.mem_singleton, List.not_mem_nil, or_false] at hr
      rcases hr with rfl | rfl
      · exact Bool.eq_false_iff.mpr hs
      · exact Bool.eq_false_iff.mpr hn
  have hgen : ∀ a : sarApprover, (∀ r ∈ a.recognizers, r.recognize csr x509cr = false) →
      handle env a csr = { err := none, csr := csr, log := [.parseCSR csr.Spec.Request] } := by
    intro a ha
    have hm : matching a.recognizers csr x509cr = [] := by
      simp only [matching, List.filter_eq_nil_iff]
      intro r hr
      simp [ha r hr]
    rw [handle_of_not_terminal env a csr hnt, hparse]
    simp only
    rw [handle.loop_allDenied env a csr x509cr a.recognizers [] _ (by rw [hm]; trivial), hm,
      handle.loop_nil]
    simp [deniedLog]
  refine ⟨hiff, ?_, hgen⟩
  intro h
  rw [hgen (newSarApprover client) (hiff.mpr h)]
  exact ⟨rfl, rfl, rfl, rfl, rfl, rfl⟩

/-- A request with a DNS SAN under the right signer: not recognized,
nothing is called beyond the parser, nil is returned. -/
theorem handle_unrecognized_noop_witness :
    (handle serverEnv (newSarApprover allowAll) workerCSR).err = none ∧
    (handle serverEnv (newSarApprover allowAll) workerCSR).log =
      [.parseCSR workerCSR.Spec.Request] :=
  have h := (handle_unrecognized_noop serverEnv allowAll workerCSR serverRequest
    (by simp [isTerminal, workerCSR]) rfl).2.1 (Or.inr (by decide))
  ⟨h.1, h.2.1⟩

/-! ## The claims on the engine -/

/-- C6 as stated fails: the cache resolves the key to an object that
carries an Approved condition (and no certificate yet), and `syncFunc`
calls the handler on it and returns the handler's error. -/
theorem syncFunc_terminal_counterexample :
    failingController.csrLister "csr-1" = .ok approvedCSR ∧
    isTerminal approvedCSR ∧
    syncFunc failingController "csr-1" =
      (some (.errorString "handler was called"), [.handler approvedCSR]) :=
  ⟨rfl, Or.inr ⟨_, List.mem_singleton.mpr rfl, Or.inl rfl⟩, rfl⟩

/-- C6, as the code has it: for a key the cache resolves to an object with
a non-empty issued certificate, `syncFunc` returns nil without calling
the handler. An object without certificate is handed to the handler,
once, and `syncFunc` returns what the handler returns, also when the
object carries an Approved or Denied condition; with the approver as
handler that is nil, and the approver makes no call. -/
theorem syncFunc_terminal (cc : CertificateController) (key : String)
    (csr : CertificateSigningRequest) (hget : cc.csrLister key = .ok csr) :
    (csr.Status.Certificate ≠ [] → syncFunc cc key = (none, [])) ∧
    (csr.Status.Certificate = [] → syncFunc cc key = (cc.handler csr, [.handler csr])) ∧
    (isTerminal csr → ∀ (env : Env) (client : Client),
      (syncFunc (NewCSRApprovingController env client cc.csrLister) key).1 = none ∧
      (handle env (newSarApprover client) csr).log = []) := by
  refine ⟨?_, ?_, ?_⟩
  · intro h
    have : csr.Status.Certificate.length > 0 := List.length_pos.mpr h
    simp [syncFunc, hget, this]
  · intro h
    simp [syncFunc, hget, h]
  · intro h env client
    have hh := handle_of_terminal env (newSarApprover client) csr h
    refine ⟨?_, by rw [hh]⟩
    by_cases hc : csr.Status.Certificate.length > 0
    · simp [syncFunc, NewCSRApprovingController, hget, hc]
    · simp [syncFunc, NewCSRApprovingController, hget, hc, hh]

/-- The object with its certificate issued is skipped, the handler is not called. -/
theorem syncFunc_terminal_witness :
    syncFunc { failingController with csrLister := fun _ => .ok issuedCSR } "csr-1" = (none, []) :=
  (syncFunc_terminal { failingController with csrLister := fun _ => .ok issuedCSR } "csr-1"
    issuedCSR rfl).1 (by decide)

/-- C7: in `processNextWorkItem`, for a popped key, when `syncFunc` returns
nil the queue operations are `Forget(key)` then `Done(key)`, the key is
not added again and no reporter is called; when it returns an error of
either class they are `AddRateLimited(key)` then `Done(key)`; in both
cases the function returns true. `HandleError` is called if and only if
the error is not an `ignorableError`, and then exactly once; an ignorable
one goes to `klog.Errorf`. The events of `syncFunc` itself come first,
unchanged. On shutdown nothing is done and false is returned. -/
theorem processNextWorkItem_retry (cc : CertificateController) (key : String) :
    ((syncFunc cc key).1 = none →
      (processNextWorkItem cc (key, false)).1 = true ∧
      (processNextWorkItem cc (key, false)).2.filter EngineEvent.isQueueOp =
        [.Forget key, .Done key] ∧
      (processNextWorkItem cc (key, false)).2 =
        (syncFunc cc key).2 ++ [.Forget key, .Done key]) ∧
    (∀ err, (syncFunc cc key).1 = some err →
      (processNextWorkItem cc (key, false)).1 = true ∧
      (processNextWorkItem cc (key, false)).2.filter EngineEvent.isQueueOp =
        [.AddRateLimited key, .Done key] ∧
      (((processNextWorkItem cc (key, false)).2.filter EngineEvent.isHandleError).length =
        (if err.isIgnorable then 0 else 1)) ∧
      ((∃ msg, EngineEvent.HandleError msg ∈ (processNextWorkItem cc (key, false)).2) ↔
        err.isIgnorable = false) ∧
      (processNextWorkItem cc (key, false)).2 =
        (syncFunc cc key).2 ++
          [.AddRateLimited key,
           if err.isIgnorable then .klogErrorf ("Sync " ++ key ++ " failed with : " ++ err.Error)
           else .HandleError ("Sync " ++ key ++ " failed with : " ++ err.Error),
           .Done key]) ∧
    processNextWorkItem cc (key, true) = (false, []) := by
  have hq : (syncFunc cc key).2.filter EngineEvent.isQueueOp = [] := by
    unfold syncFunc
    split
    · split <;> rfl
    · split <;> rfl
  have hE : (syncFunc cc key).2.filter EngineEvent.isHandleError = [] := by
    unfold syncFunc
    split
    · split <;> rfl
    · split <;> rfl
  have hm : ∀ msg, EngineEvent.HandleError msg ∉ (syncFunc cc key).2 := by
    intro msg hmem
    have := List.mem_filter.mpr ⟨hmem, (rfl : (EngineEvent.HandleError msg).isHandleError = true)⟩
    rw [hE] at this
    exact List.not_mem_nil _ this
  refine ⟨?_, ?_, rfl⟩
  · intro h
    have hs : syncFunc cc key = (none, (syncFunc cc key).2) := by rw [← h]
    have hp : processNextWorkItem cc (key, false) =
        (true, (syncFunc cc key).2 ++ [.Forget key, .Done key]) := by
      simp only [processNextWorkItem]
      rw [hs]
      simp
    rw [hp]
    refine ⟨rfl, ?_, rfl⟩
    simp only [List.filter_append, hq]
    rfl
  · intro err h
    have hs : syncFunc cc key = (some err, (syncFunc cc key).2) := by rw [← h]
    cases hi : err.isIgnorable
    · have hp : processNextWorkItem cc (key, false) =
          (true, (syncFunc cc key).2 ++ [.AddRateLimited key,
            .HandleError ("Sync " ++ key ++ " failed with : " ++ err.Error), .Done key]) := by
        simp only [processNextWorkItem]
        rw [hs]
        simp [hi]
      rw [hp]
      refine ⟨rfl, ?_, ?_, ?_, by simp⟩
      · simp only [List.filter_append, hq]
        rfl
      · simp only [List.filter_append, hE]
        rfl
      · simp
    · have hp : processNextWorkItem cc (key, false) =
          (true, (syncFunc cc key).2 ++ [.AddRateLimited key,
            .klogErrorf ("Sync " ++ key ++ " failed with : " ++ err.Error), .Done key]) := by
        simp only [processNextWorkItem]
        rw [hs]
        simp [hi]
      rw [hp]
      refine ⟨rfl, ?_, ?_, ?_, by simp⟩
      · simp only [List.filter_append, hq]
        rfl
      · simp only [List.filter_append, hE]
        rfl
      · simp only [List.mem_append, List.mem_cons, List.mem_singleton, List.not_mem_nil,
          or_false, reduceCtorEq, false_or, iff_false, not_exists]
        intro msg hmsg
        exact hm msg hmsg

/-- The two error classes at work: an ignorable error and an ordinary one
are both re-queued with `AddRateLimited`; only the ordinary one reaches
`HandleError`. -/
theorem processNextWorkItem_retry_witness :
    (processNextWorkItem (controllerReturning (some (.ignorableError "denied")))
        ("csr-1", false)).2.filter EngineEvent.isQueueOp =
      [.AddRateLimited "csr-1", .Done "csr-1"] ∧
    (processNextWorkItem (controllerReturning (some (.errorString "boom")))
        ("csr-1", false)).2.filter EngineEvent.isQueueOp =
      [.AddRateLimited "csr-1", .Done "csr-1"] ∧
    (processNextWorkItem (controllerReturning none) ("csr-1", false)).2.filter
        EngineEvent.isQueueOp =
      [.Forget "csr-1", .Done "csr-1"] :=
  ⟨((processNextWorkItem_retry (controllerReturning (some (.ignorableError "denied")))
      "csr-1").2.1 _ rfl).2.1,
   ((processNextWorkItem_retry (controllerReturning (some (.errorString "boom")))
      "csr-1").2.1 _ rfl).2.1,
   ((processNextWorkItem_retry (controllerReturning none) "csr-1").1 rfl).2.1⟩

end VNodeApprover
